import Mathlib

/-
Verification of the incremental early-resignation detection engine
(`scripts/detect_early_resignations.py`).  The Python source is shallowly
embedded: insertion-ordered dicts become association lists, sets become
duplicate-free lists, and the external collaborators (HTTP fetcher, PGN
move counter) are passed in as explicit functions, exactly as the
specification treats them (external pure functions).
-/

set_option autoImplicit false

namespace DetectEarly

/-! ## Python-style helpers -/

/-- ASCII lower-casing of one character (the repository's data is ASCII,
so this models Python's `str.lower` on it). -/
def lowerChar (c : Char) : Char :=
  if 'A' ≤ c ∧ c ≤ 'Z' then Char.ofNat (c.toNat + 32) else c

/-- Python `s.lower()` (ASCII). -/
def pyLower (s : String) : String := String.mk (s.toList.map lowerChar)

/-- Python truthiness of an optional string: `None` and `""` are falsy. -/
def truthyS : Option String → Bool
  | none => false
  | some s => s ≠ ""

/-- Python `a or b` on optional strings (first truthy value wins). -/
def pyOr (a b : Option String) : Option String := if truthyS a then a else b

/-- Python `a or b` where the fallback is a plain string. -/
def pyOrD (a : Option String) (b : String) : String :=
  match a with
  | some s => if s = "" then b else s
  | none => b

/-- Python substring test `needle in hay` on character lists. -/
def infixFrom (needle hay : List Char) : Bool :=
  match hay with
  | [] => needle.isEmpty
  | _ :: t => needle.isPrefixOf hay || infixFrom needle t

/-- Python substring test `needle in hay` on strings. -/
def strContains (hay needle : String) : Bool := infixFrom needle.toList hay.toList

/-- Python `set.add` modelled on a duplicate-free list (append if absent). -/
def insertSet (l : List String) (k : String) : List String :=
  if k ∈ l then l else l ++ [k]

/-- Python `set.discard`. -/
def discardSet (l : List String) (k : String) : List String :=
  l.filter (fun x => x ≠ k)

/-- First binding of a key in an insertion-ordered dict. -/
def alFind? {α : Type} : List (String × α) → String → Option α
  | [], _ => none
  | (k', v) :: rest, k => if k' = k then some v else alFind? rest k

/-- Python `d.setdefault(k, d0)` followed by an in-place update of the value:
the first binding of `k` is updated in place; a missing key is appended. -/
def alUpdate {α : Type} (k : String) (d0 : α) (f : α → α) :
    List (String × α) → List (String × α)
  | [] => [(k, f d0)]
  | (k', v) :: rest => if k' = k then (k', f v) :: rest else (k', v) :: alUpdate k d0 f rest

/-- Python `d[k] = v`. -/
def alSet {α : Type} (k : String) (v : α) (l : List (String × α)) : List (String × α) :=
  alUpdate k v (fun _ => v) l

/-- Python `d.pop(k, None)`. -/
def alRemove {α : Type} (k : String) (l : List (String × α)) : List (String × α) :=
  l.filter (fun p => p.1 ≠ k)

/-- `checked_players_by_match.setdefault(murl, set()).add(key)`. -/
def addChecked (m : List (String × List String)) (murl key : String) :
    List (String × List String) :=
  alUpdate murl [] (fun s => insertSet s key) m

/-- `checked_players_by_match.get(murl, set())`. -/
def lookupSet (m : List (String × List String)) (k : String) : List String :=
  (alFind? m k).getD []

/-- Split a string at its first `:` (Python `s.split(":", 1)`), given one exists. -/
def splitColonAux : List Char → List Char × List Char
  | [] => ([], [])
  | c :: rest =>
    if c = ':' then ([], rest)
    else
      let p := splitColonAux rest
      (c :: p.1, p.2)

/-- Python `s.split(":", 1)` packaged as the (before, after) pair. -/
def splitColon (s : String) : String × String :=
  let p := splitColonAux s.toList
  (String.mk p.1, String.mk p.2)

/-! ## Data model

Typed images of the JSON shapes the script actually reads: game sides,
games on a board, candidate tuples and the result-file forest. -/

/-- One side (`white`/`black`) of a game on a board: the `username` and
`result` fields read at lines 384-396 of the script.  A missing `result`
key and an empty/falsy side dict both read back as `result = ""`. -/
structure GameSide where
  username : Option String
  result : String
deriving Repr, DecidableEq

/-- One game of a board-detail response (lines 383-398).  `none` for a side
models a missing or non-dict value; `pgn`/`termination` default to `""`. -/
structure Game where
  white : Option GameSide
  black : Option GameSide
  termination : String
  pgn : String
  url : Option String
  gameUrl : Option String
deriving Repr, DecidableEq

/-- The `match_ref` dict built at lines 262-267. -/
structure MatchRef where
  matchUrl : String
  matchWebUrl : Option String
  league : String
  subLeague : String
deriving Repr, DecidableEq

/-- One candidate tuple `(username, color_name, match_ref, is_resigned)` of
`candidates_by_board` (line 222). -/
structure Candidate where
  username : String
  color : String
  ref : MatchRef
  isResignedFlag : Bool
deriving Repr, DecidableEq

/-- One emitted early-resignation record (lines 423-429). -/
structure Entry where
  username : String
  color : String
  movesPly : Nat
  gameApi : String
  boardApi : String
deriving Repr, DecidableEq

/-- One element of a sub-league's `matches` list in the results file. -/
structure MatchItem where
  matchUrl : String
  matchWebUrl : Option String
  players : List Entry
deriving Repr, DecidableEq

/-- A sub-league of the results file; `matchItems` is the JSON key
`"matches"` (`matches` is reserved in Lean). -/
structure SubR where
  matchItems : List MatchItem
deriving Repr, DecidableEq

/-- A league of the results file. -/
structure LeagueR where
  subLeagues : List (String × SubR)
deriving Repr, DecidableEq

/-- The results file: `{lastUpdated, leagues}`. -/
structure Results where
  lastUpdated : Option String
  leagues : List (String × LeagueR)
deriving Repr, DecidableEq

/-! ## Result insertion (`insert_result`, lines 106-131) -/

/-- The de-duplication key of a result record (line 114). -/
def dedupKey (e : Entry) : String × String × String :=
  (pyLower e.username, e.color, e.gameApi)

/-- Lines 115-131: find the first match item with this `matchUrl` and append
the entry unless its key is already present; otherwise append a fresh item. -/
def addEntryToMatches (match_url : String) (web : Option String) (e : Entry) :
    List MatchItem → List MatchItem
  | [] => [{ matchUrl := match_url, matchWebUrl := web, players := [e] }]
  | m :: rest =>
    if m.matchUrl = match_url then
      (if dedupKey e ∈ m.players.map dedupKey then m
       else { m with players := m.players ++ [e] }) :: rest
    else m :: addEntryToMatches match_url web e rest

/-- The empty league dict created by `setdefault` (line 108). -/
def emptyLeague : LeagueR := { subLeagues := [] }

/-- The empty sub-league dict created by `setdefault` (line 110). -/
def emptySub : SubR := { matchItems := [] }

/-- `insert_result` (lines 106-131).  The `match_key` argument is accepted
but unused, exactly as in the source. -/
def insert_result (results : Results) (league subleague : String) (_match_key : String)
    (match_info : MatchRef) (entry : Entry) : Results :=
  { results with
    leagues :=
      alUpdate league emptyLeague (fun L =>
        { subLeagues :=
            alUpdate subleague emptySub (fun S =>
              { matchItems :=
                  addEntryToMatches match_info.matchUrl match_info.matchWebUrl entry
                    S.matchItems }) L.subLeagues }) results.leagues }

/-! ## Per-candidate classification (lines 348-448) -/

/-- `DEFINITIVE_RESULTS` (lines 348-351). -/
def DEFINITIVE_RESULTS : List String :=
  ["win", "loss", "agreed", "stalemate", "checkmated", "timeout", "resigned",
   "timevsinsufficient", "insufficient", "repetition", "50move", "abandoned"]

/-- Lines 384-389: the lower-cased username of one side of a game
(`None` when the side or its username is missing). -/
def sideUserLower (side : Option GameSide) : Option String :=
  match side with
  | some s => s.username.map pyLower
  | none => none

/-- Lines 394-395: the game side the candidate's username occupies
(white wins ties, black otherwise). -/
def ownSide (g : Game) (u : String) : Option GameSide :=
  if sideUserLower g.white = some u then g.white else g.black

/-- Line 396: the lower-cased `result` field of the candidate's own side. -/
def ownResultField (g : Game) (u : String) : String :=
  match ownSide g u with
  | some s => pyLower s.result
  | none => ""

/-- Line 408: `game_finished` — the side's result is non-empty and contains
one of the definitive result codes as a substring (Python `r in result_field`). -/
def gameFinished (result_field : String) : Bool :=
  result_field ≠ "" && DEFINITIVE_RESULTS.any (fun r => strContains result_field r)

/-- Lines 391-448, the per-(game, candidate) decision: `none` when the
candidate's username matches neither side of the game (line 392 `continue`);
otherwise `some (emitted, resolved)` where `emitted` is the record handed to
`insert_result` (lines 421-432) and `resolved` says whether the candidate is
marked done (lines 419, 434-438). -/
def evalCandidate (threshold : Nat) (mc : String → Nat) (boardUrl : String) (idx : Nat)
    (g : Game) (c : Candidate) : Option (Option Entry × Bool) :=
  let wu := sideUserLower g.white
  let bu := sideUserLower g.black
  if wu ≠ some c.username ∧ bu ≠ some c.username then none
  else
    let personSide := if wu = some c.username then "white" else "black"
    let result_field := ownResultField g c.username
    let resigned := result_field = "resigned"
    let moves := mc g.pgn
    let finished := gameFinished result_field
    let above := threshold < moves
    if finished || above then
      let emitted :=
        if resigned ∧ moves ≤ threshold then
          some { username := c.username, color := personSide, movesPly := moves,
                 gameApi := pyOrD g.url (pyOrD g.gameUrl
                   (boardUrl ++ "#index=" ++ toString idx)),
                 boardApi := boardUrl }
        else none
      some (emitted, true)
    else some (none, false)

/-- The `username:color` cache key of a candidate (line 411). -/
def candKey (c : Candidate) : String := c.username ++ ":" ++ c.color

/-- State threaded through the game loop of one board (lines 383-448):
the mutable `remaining` list, `checked_players_by_match` and `results`. -/
structure GameLoopState where
  remaining : List Candidate
  checked : List (String × List String)
  results : Results
deriving Repr, DecidableEq

/-- Lines 391-448: process one candidate of the snapshot `list(remaining)`
against one game, updating `remaining`, the resolved-PMC cache and the
results being built. -/
def processCand (threshold : Nat) (mc : String → Nat) (boardUrl : String) (idx : Nat)
    (g : Game) (st : GameLoopState) (c : Candidate) : GameLoopState :=
  match evalCandidate threshold mc boardUrl idx g c with
  | none => st
  | some (emitted, resolved) =>
    let murl := c.ref.matchUrl
    let results :=
      match emitted with
      | some e =>
        insert_result st.results
          (if c.ref.league = "" then "unknown" else c.ref.league)
          (if c.ref.subLeague = "" then "unknown" else c.ref.subLeague)
          murl c.ref e
      | none => st.results
    if resolved then
      { remaining := st.remaining.filter (fun x =>
          ¬ (x.username = c.username ∧ x.color = c.color ∧ x.ref.matchUrl = murl)),
        checked := addChecked st.checked murl (candKey c),
        results := results }
    else { st with results := results }

/-! ## Candidate Collector (lines 219-343) -/

/-- The value of a `played_as_white` / `played_as_black` field (lines
311-319): falsy (missing, `""`, `{}`, ...), a truthy string, or a
(non-empty) dict with optional `board` / `board_url` entries. -/
inductive PlayedVal where
  | falsy
  | str (s : String)
  | dict (board boardUrl : Option String)
deriving Repr, DecidableEq

/-- Python truthiness of a `PlayedVal` (`if not field_val: continue`). -/
def PlayedVal.truthy : PlayedVal → Bool
  | .falsy => false
  | .str s => s ≠ ""
  | .dict _ _ => true

/-- One (username, player-object) pair yielded by
`find_player_played_entries` over our team's roster (lines 84-103, 308);
the yielded username is lower-cased (lines 93/97), modelled by applying
`pyLower` at the use site. -/
structure PlayerObj where
  username : String
  playedAsWhite : PlayedVal
  playedAsBlack : PlayedVal
  board : Option String
deriving Repr, DecidableEq

/-- The part of a fetched match-detail JSON the script consumes: the
stream of player entries found for our team (lines 296-308); an empty
list covers both "team not found" and "no played entries", which commit
no state either way. -/
structure MatchDetail where
  ourPlayers : List PlayerObj
deriving Repr, DecidableEq

/-- One match record of the league data set (lines 233-253).  `matchUrl`
models `match.get("matchUrl") or match.get("matchId")` (`""` when falsy);
`matchResult` is `str(match_result.get("result", ""))`; `playerStats` is
`some n` for a dict with `n` entries and `none` for a missing or non-dict
value. -/
structure MatchData where
  status : String
  matchUrl : String
  matchWebUrl : Option String
  matchResult : String
  playerStats : Option Nat
deriving Repr, DecidableEq

/-- A sub-league of the league data set (line 232: the list selected by
`sub_val.get("rounds") or sub_val.get("matches") or []`). -/
structure SubVal where
  rounds : List MatchData
deriving Repr, DecidableEq

/-- A league of the league data set. -/
structure LeagueVal where
  subLeagues : List (String × SubVal)
deriving Repr, DecidableEq

/-- The league data set: league name → sub-league name → match list. -/
structure LeagueData where
  leagues : List (String × LeagueVal)
deriving Repr, DecidableEq

/-- The collector's working state (lines 183-226): the resolved-match
tier, the cached player→board index, the per-run candidate list, the
expected-PMC sets, the boards seen per match, and a log of the
match-detail URLs for which a fetch was attempted. -/
structure CollectState where
  checkedMatches : List String
  playerBoards : List (String × List (String × String))
  candidates : List (String × List Candidate)
  matchPlayerSet : List (String × List String)
  matchBoardUrls : List (String × List String)
  fetched : List String
deriving Repr, DecidableEq

/-- `candidates_by_board.setdefault(board_url, []).append(c)`
(lines 285, 338). -/
def addCandidate (cbs : List (String × List Candidate)) (burl : String)
    (c : Candidate) : List (String × List Candidate) :=
  alUpdate burl [] (fun l => l ++ [c]) cbs

/-- Lines 275-288: process one cached `player_key → board_url` entry of
`player_boards_by_match` for a match. -/
def collectCachedEntry (checked : List (String × List String)) (murl : String)
    (ref : MatchRef) (st : CollectState) (pb : String × String) : CollectState :=
  let player_key := pb.1
  let board_url := pb.2
  if ¬ strContains player_key ":" then st
  else
    let p := splitColon player_key
    let st1 := { st with matchPlayerSet := addChecked st.matchPlayerSet murl player_key }
    if player_key ∈ lookupSet checked murl then st1
    else
      { st1 with
        matchBoardUrls := addChecked st1.matchBoardUrls murl board_url,
        candidates := addCandidate st1.candidates board_url
          { username := p.1, color := p.2, ref := ref, isResignedFlag := false } }

/-- Lines 311-340: process one (player, color-field) pair of a fetched
match detail. -/
def collectColor (checked : List (String × List String)) (murl : String)
    (ref : MatchRef) (username : String) (p : PlayerObj) (fv : PlayedVal)
    (color_name : String) (st : CollectState) : CollectState :=
  if ¬ fv.truthy then st
  else
    let board_url : Option String :=
      match fv with
      | .str _ => p.board
      | .dict b bu => pyOr (pyOr b bu) p.board
      | .falsy => none
    let player_key := username ++ ":" ++ color_name
    let st1 := { st with matchPlayerSet := addChecked st.matchPlayerSet murl player_key }
    let st2 :=
      if truthyS board_url then
        { st1 with playerBoards :=
            alUpdate murl [] (alSet player_key (board_url.getD "")) st1.playerBoards }
      else st1
    if player_key ∈ lookupSet checked murl then st2
    else if truthyS board_url then
      { st2 with
        matchBoardUrls := addChecked st2.matchBoardUrls murl (board_url.getD ""),
        candidates := addCandidate st2.candidates (board_url.getD "")
          { username := username, color := color_name, ref := ref,
            isResignedFlag := false } }
    else st2

/-- Lines 308-340: process one yielded player entry (both colors, in the
source's order). -/
def collectPlayer (checked : List (String × List String)) (murl : String)
    (ref : MatchRef) (st : CollectState) (p : PlayerObj) : CollectState :=
  let username := pyLower p.username
  if username = "" then st
  else
    collectColor checked murl ref username p p.playedAsBlack "black"
      (collectColor checked murl ref username p p.playedAsWhite "white" st)

/-- Lines 233-340: process one match record of the league data set. -/
def collectMatch (checked : List (String × List String))
    (fetchM : String → Option MatchDetail) (league_key sub_name : String)
    (m : MatchData) (st : CollectState) : CollectState :=
  let status := pyLower m.status
  if status ≠ "in_progress" ∧ status ≠ "finished" then st
  else
    let murl := m.matchUrl
    if murl = "" then st
    else if murl ∈ st.checkedMatches then st
    else
      let result_str := pyLower m.matchResult
      if strContains result_str "forfeit" ∨
         (status = "finished" ∧ m.playerStats = some 0) then
        { st with checkedMatches := insertSet st.checkedMatches murl }
      else
        let ref : MatchRef :=
          { matchUrl := murl, matchWebUrl := m.matchWebUrl,
            league := league_key, subLeague := sub_name }
        match alFind? st.playerBoards murl with
        | some pbMap => pbMap.foldl (collectCachedEntry checked murl ref) st
        | none =>
          match fetchM murl with
          | none => { st with fetched := st.fetched ++ [murl] }
          | some detail =>
            detail.ourPlayers.foldl (collectPlayer checked murl ref)
              { st with fetched := st.fetched ++ [murl] }

/-- Lines 231-340: the collector walk over one sub-league's match list. -/
def collectSubLeague (checked : List (String × List String))
    (fetchM : String → Option MatchDetail) (league_key : String)
    (st : CollectState) (skv : String × SubVal) : CollectState :=
  skv.2.rounds.foldl (fun st2 m => collectMatch checked fetchM league_key skv.1 m st2) st

/-- Lines 229-340: the collector walk over one league. -/
def collectLeague (checked : List (String × List String))
    (fetchM : String → Option MatchDetail) (st : CollectState)
    (lkv : String × LeagueVal) : CollectState :=
  lkv.2.subLeagues.foldl (collectSubLeague checked fetchM lkv.1) st

/-- Lines 228-340: the full collector walk over the league data set. -/
def collectAll (checked : List (String × List String))
    (fetchM : String → Option MatchDetail) (ld : LeagueData)
    (st : CollectState) : CollectState :=
  ld.leagues.foldl (collectLeague checked fetchM) st

/-! ## Resignation Classifier (lines 345-456) -/

/-- The classifier's working state: the resolved-PMC and resolved-board
tiers, the results being built, and a log of the board URLs for which a
fetch was attempted. -/
structure ClassifyState where
  checked : List (String × List String)
  checkedBoards : List String
  results : Results
  fetched : List String
deriving Repr, DecidableEq

/-- Lines 383-448: the loop over the games of one fetched board with
`enumerate`'s index; each game iterates over the snapshot
`list(remaining)` taken at its start. -/
def processGames (threshold : Nat) (mc : String → Nat) (boardUrl : String) :
    Nat → List Game → GameLoopState → GameLoopState
  | _, [], st => st
  | idx, g :: gs, st =>
    processGames threshold mc boardUrl (idx + 1) gs
      (st.remaining.foldl (processCand threshold mc boardUrl idx g) st)

/-- Lines 353-456: process one `(board_url, candidates)` entry of
`candidates_by_board`.  `fetchB` returns the already-normalized game list
of a board-detail response (lines 379-381). -/
def classifyBoard (threshold : Nat) (mc : String → Nat)
    (fetchB : String → Option (List Game)) (st : ClassifyState)
    (entry : String × List Candidate) : ClassifyState :=
  let boardUrl := entry.1
  let candidates := entry.2
  if candidates = [] then st
  else
    let remaining := candidates.filter (fun c =>
      candKey c ∉ lookupSet st.checked c.ref.matchUrl)
    if remaining = [] then st
    else if boardUrl ∈ st.checkedBoards then
      { st with checked := remaining.foldl (fun ch c =>
          if c.ref.matchUrl ≠ "" then addChecked ch c.ref.matchUrl (candKey c)
          else ch) st.checked }
    else
      match fetchB boardUrl with
      | none => { st with fetched := st.fetched ++ [boardUrl] }
      | some games =>
        let gls := processGames threshold mc boardUrl 0 games
          { remaining := remaining, checked := st.checked, results := st.results }
        let st1 := { st with
                     checked := gls.checked
                     results := gls.results
                     fetched := st.fetched ++ [boardUrl] }
        if candidates.all (fun c =>
            candKey c ∈ lookupSet gls.checked c.ref.matchUrl) then
          { st1 with checkedBoards := insertSet st1.checkedBoards boardUrl }
        else st1

/-- Lines 353-456: the loop over all boards with candidates. -/
def classifyAll (threshold : Nat) (mc : String → Nat)
    (fetchB : String → Option (List Game))
    (cbs : List (String × List Candidate)) (st : ClassifyState) : ClassifyState :=
  cbs.foldl (classifyBoard threshold mc fetchB) st

/-! ## Promotion (lines 458-469) -/

/-- The cache tiers the promotion step reads and writes. -/
structure PromoteState where
  checked : List (String × List String)
  checkedMatches : List String
  checkedBoards : List String
deriving Repr, DecidableEq

/-- Lines 460-469: the body of the promotion loop for one
`(match_url, expected_players)` entry: if the expected set is a subset of
the match's resolved PMCs, add the match to `checked_matches`, pop its
`checked_players_by_match` entry, and discard its registered boards from
`checked_boards`. -/
def promoteOne (matchBoardUrls : List (String × List String))
    (ps : PromoteState) (entry : String × List String) : PromoteState :=
  let murl := entry.1
  if entry.2.all (fun k => k ∈ lookupSet ps.checked murl) then
    { checked := alRemove murl ps.checked,
      checkedMatches := insertSet ps.checkedMatches murl,
      checkedBoards :=
        (lookupSet matchBoardUrls murl).foldl discardSet ps.checkedBoards }
  else ps

/-- Lines 458-469: promote every match whose expected PMC set is a subset
of its resolved PMCs. -/
def promote (matchBoardUrls : List (String × List String))
    (mps : List (String × List String)) (ps : PromoteState) : PromoteState :=
  mps.foldl (promoteOne matchBoardUrls) ps

/-! ## Prefill from the existing results file (lines 199-217) -/

/-- Lines 211-215: register one player record of the existing results file
under its match, keyed `f"{uname.lower()}:{color}"` (skipping falsy
usernames). -/
def prefillPlayer (murl : String) (ch : List (String × List String))
    (p : Entry) : List (String × List String) :=
  if p.username = "" then ch
  else addChecked ch murl (pyLower p.username ++ ":" ++ p.color)

/-- Lines 207-215: register one match item of the existing results file
(skipping items with a falsy match URL). -/
def prefillMatch (ch : List (String × List String)) (mi : MatchItem) :
    List (String × List String) :=
  if mi.matchUrl = "" then ch
  else mi.players.foldl (prefillPlayer mi.matchUrl) ch

/-- Lines 206-215: register one sub-league of the existing results file. -/
def prefillSub (ch : List (String × List String)) (skv : String × SubR) :
    List (String × List String) :=
  skv.2.matchItems.foldl prefillMatch ch

/-- Lines 205-215: register one league of the existing results file. -/
def prefillLeague (ch : List (String × List String)) (lkv : String × LeagueR) :
    List (String × List String) :=
  lkv.2.subLeagues.foldl prefillSub ch

/-- Lines 199-217: add every player record of the existing results file to
`checked_players_by_match` under its match. -/
def prefill (existing : Results) (checked : List (String × List String)) :
    List (String × List String) :=
  existing.leagues.foldl prefillLeague checked

/-! ## Result Merger (lines 471-509) -/

/-- Lines 489-507: merge one new match item into the destination match
list — find the first item with the same `matchUrl` and append only the
players whose key is absent from the pre-computed key set; append the
whole item when the URL is new. -/
def mergeMatchInto : List MatchItem → MatchItem → List MatchItem
  | [], item => [item]
  | dm :: rest, item =>
    if dm.matchUrl = item.matchUrl then
      (let eks := dm.players.map dedupKey
       { dm with players :=
           dm.players ++ item.players.filter (fun p => dedupKey p ∉ eks) }) :: rest
    else dm :: mergeMatchInto rest item

/-- Lines 485-507: merge one new (sub-league key, sub-league) pair into
the destination league's sub-league dict. -/
def mergeSubInto (dsl : List (String × SubR)) (skv : String × SubR) :
    List (String × SubR) :=
  alUpdate skv.1 emptySub (fun ds =>
    { matchItems := skv.2.matchItems.foldl mergeMatchInto ds.matchItems }) dsl

/-- Lines 483-507: merge one new (league key, league) pair into the
destination leagues dict. -/
def mergeLeagueInto (dest : List (String × LeagueR)) (lkv : String × LeagueR) :
    List (String × LeagueR) :=
  alUpdate lkv.1 emptyLeague (fun dl =>
    { subLeagues := lkv.2.subLeagues.foldl mergeSubInto dl.subLeagues }) dest

/-- Lines 483-507: merge the whole new results forest into the previously
persisted collection. -/
def mergeResults (newR : Results) (existing : Results) : Results :=
  { existing with
    leagues := newR.leagues.foldl mergeLeagueInto existing.leagues }

/-! ## Cache save (lines 515-530) and the full run -/

/-- The in-memory cache loaded at start (lines 175-197); corrupt or
missing input degrades to empty structures upstream of this model. -/
structure Cache where
  checkedPlayersByMatch : List (String × List String)
  checkedBoards : List String
  checkedMatches : List String
  playerBoardsByMatch : List (String × List (String × String))
deriving Repr, DecidableEq

/-- A cache file as serialized at lines 520-530: list values sorted, dict
keys kept in insertion order, board maps of resolved matches dropped and
empty maps omitted. -/
structure SavedCache where
  checkedPlayersByMatch : List (String × List String)
  checkedBoards : List String
  checkedMatches : List String
  playerBoardsByMatch : List (String × List (String × String))
  lastRun : String
deriving Repr, DecidableEq

/-- Code-point-wise comparison of character lists (Python `<=` on str). -/
def listLe : List Char → List Char → Bool
  | [], _ => true
  | _ :: _, [] => false
  | a :: as, b :: bs => if a < b then true else if b < a then false else listLe as bs

/-- Python `a <= b` on strings (code-point lexicographic). -/
def strLe (a b : String) : Bool := listLe a.toList b.toList

/-- Stable insertion step of `sortStrings`. -/
def insertSorted (x : String) : List String → List String
  | [] => [x]
  | y :: ys => if strLe x y then x :: y :: ys else y :: insertSorted x ys

/-- Python `sorted` on a list of strings (stable, ascending). -/
def sortStrings : List String → List String
  | [] => []
  | x :: xs => insertSorted x (sortStrings xs)

/-- Lines 515-530: build the serialized cache object (`cache_obj`). -/
def saveCache (checked : List (String × List String))
    (checkedBoards checkedMatches : List String)
    (playerBoards : List (String × List (String × String))) (now : String) :
    SavedCache :=
  let pb := checkedMatches.foldl (fun pb1 m => alRemove m pb1) playerBoards
  { checkedPlayersByMatch := checked.map (fun kv => (kv.1, sortStrings kv.2)),
    checkedBoards := sortStrings checkedBoards,
    checkedMatches := sortStrings checkedMatches,
    playerBoardsByMatch := pb.filter (fun kv => kv.2 ≠ []),
    lastRun := now }

/-- Lines 183-197: reloading a saved cache file at the start of the next
run: resolved-PMC values become lower-cased sets, the board and match
lists become sets, and the board index is taken as-is. -/
def cacheOf (sc : SavedCache) : Cache :=
  { checkedPlayersByMatch :=
      sc.checkedPlayersByMatch.map
        (fun kv => (kv.1, kv.2.foldl (fun acc u => insertSet acc (pyLower u)) [])),
    checkedBoards := sc.checkedBoards,
    checkedMatches := sc.checkedMatches,
    playerBoardsByMatch := sc.playerBoardsByMatch }

/-- What one engine run writes and fetches, with the collector's final
candidate list and the run's freshly emitted results exposed. -/
structure RunOutput where
  outFile : Results
  cacheFile : SavedCache
  matchFetches : List String
  boardFetches : List String
  candidates : List (String × List Candidate)
  newResults : Results
deriving Repr, DecidableEq

/-- Lines 199-217: the resolved-PMC map after the prefill from the
existing results file (skipped when the file is missing). -/
def initialChecked (existingOut : Option Results) (cache0 : Cache) :
    List (String × List String) :=
  match existingOut with
  | some ex => prefill ex cache0.checkedPlayersByMatch
  | none => cache0.checkedPlayersByMatch

/-- Lines 228-340: the collector phase of a run. -/
def collectPhase (fetchM : String → Option MatchDetail) (ld : LeagueData)
    (existingOut : Option Results) (cache0 : Cache) : CollectState :=
  collectAll (initialChecked existingOut cache0) fetchM ld
    { checkedMatches := cache0.checkedMatches,
      playerBoards := cache0.playerBoardsByMatch,
      candidates := [], matchPlayerSet := [], matchBoardUrls := [], fetched := [] }

/-- Lines 345-456: the classifier phase of a run. -/
def classifyPhase (threshold : Nat) (mc : String → Nat)
    (fetchM : String → Option MatchDetail) (fetchB : String → Option (List Game))
    (ld : LeagueData) (existingOut : Option Results) (cache0 : Cache)
    (now : String) : ClassifyState :=
  classifyAll threshold mc fetchB (collectPhase fetchM ld existingOut cache0).candidates
    { checked := initialChecked existingOut cache0,
      checkedBoards := cache0.checkedBoards,
      results := { lastUpdated := some now, leagues := [] }, fetched := [] }

/-- Lines 458-469: the promotion phase of a run. -/
def promotePhase (threshold : Nat) (mc : String → Nat)
    (fetchM : String → Option MatchDetail) (fetchB : String → Option (List Game))
    (ld : LeagueData) (existingOut : Option Results) (cache0 : Cache)
    (now : String) : PromoteState :=
  let cst := collectPhase fetchM ld existingOut cache0
  let clst := classifyPhase threshold mc fetchM fetchB ld existingOut cache0 now
  promote cst.matchBoardUrls cst.matchPlayerSet
    { checked := clst.checked, checkedMatches := cst.checkedMatches,
      checkedBoards := clst.checkedBoards }

/-- The full engine run (`main`, lines 175-533) over the loaded league
data, the previously persisted results file (`none` when the file is
missing) and the loaded cache, with the external fetchers, the external
move counter and the run timestamp as parameters. -/
def runEngine (threshold : Nat) (mc : String → Nat)
    (fetchM : String → Option MatchDetail) (fetchB : String → Option (List Game))
    (ld : LeagueData) (existingOut : Option Results) (cache0 : Cache)
    (now : String) : RunOutput :=
  let cst := collectPhase fetchM ld existingOut cache0
  let clst := classifyPhase threshold mc fetchM fetchB ld existingOut cache0 now
  let ps := promotePhase threshold mc fetchM fetchB ld existingOut cache0 now
  let existing := existingOut.getD { lastUpdated := none, leagues := [] }
  let merged := mergeResults clst.results existing
  { outFile := { merged with lastUpdated := some now },
    cacheFile := saveCache ps.checked ps.checkedBoards ps.checkedMatches
      cst.playerBoards now,
    matchFetches := cst.fetched,
    boardFetches := clst.fetched,
    candidates := cst.candidates,
    newResults := clst.results }

/-! ## Predicates used by the statements -/

/-- Candidate membership in a `candidates_by_board` structure. -/
def CandIn (cbs : List (String × List Candidate)) (c : Candidate) : Prop :=
  ∃ q ∈ cbs, c ∈ q.2

/-- Pointwise inclusion of resolved-PMC maps. -/
def CheckedLe (m1 m2 : List (String × List String)) : Prop :=
  ∀ murl k, k ∈ lookupSet m1 murl → k ∈ lookupSet m2 murl

/-- Collector invariant: the initial resolved-match set is retained, and
every enqueued candidate is unresolved in `checked` with a match outside
the initial resolved-match set `cms0`. -/
def EnqOK (checked : List (String × List String)) (cms0 : List String)
    (st : CollectState) : Prop :=
  cms0 ⊆ st.checkedMatches ∧
  ∀ c, CandIn st.candidates c →
    candKey c ∉ lookupSet checked c.ref.matchUrl ∧ c.ref.matchUrl ∉ cms0

/-- A match item of a results forest with the given match URL. -/
def MatchUrlIn (r : Results) (u : String) : Prop :=
  ∃ lkv ∈ r.leagues, ∃ skv ∈ lkv.2.subLeagues, ∃ mi ∈ skv.2.matchItems,
    mi.matchUrl = u

/-- Positional extension of lists under a relation: every original position
is still present (related by `R`) and only new elements are appended. -/
def ListExt {α : Type} (R : α → α → Prop) (xs ys : List α) : Prop :=
  xs.length ≤ ys.length ∧
  ∀ (i : Nat) (hx : i < xs.length) (hy : i < ys.length),
    R (xs.get ⟨i, hx⟩) (ys.get ⟨i, hy⟩)

/-- A keyed entry extends another: same key, related values. -/
def EntryExt {α : Type} (R : α → α → Prop) (p q : String × α) : Prop :=
  q.1 = p.1 ∧ R p.2 q.2

/-- One match item extends another: same identifiers, and the player list
is extended only by records whose de-duplication key was absent from the
original list. -/
def MatchExt (m m2 : MatchItem) : Prop :=
  m2.matchUrl = m.matchUrl ∧ m2.matchWebUrl = m.matchWebUrl ∧
  ∃ ext, m2.players = m.players ++ ext ∧
    ∀ e ∈ ext, dedupKey e ∉ m.players.map dedupKey

/-- A sub-league extends another (match items extended positionally). -/
def SubExt (s s2 : SubR) : Prop :=
  ListExt MatchExt s.matchItems s2.matchItems

/-- A league extends another. -/
def LeagueExt (L L2 : LeagueR) : Prop :=
  ListExt (EntryExt SubExt) L.subLeagues L2.subLeagues

/-- A results forest extends another: no league, sub-league, match or
player record is removed, and appended player records have fresh keys with
respect to the original player list of their match. -/
def ResultsExt (r r2 : Results) : Prop :=
  ListExt (EntryExt LeagueExt) r.leagues r2.leagues

/-- Every match item of a results forest has duplicate-free player keys. -/
def NodupKeys (r : Results) : Prop :=
  ∀ lkv ∈ r.leagues, ∀ skv ∈ lkv.2.subLeagues, ∀ mi ∈ skv.2.matchItems,
    (mi.players.map dedupKey).Nodup

/-- The status test of line 236: the match is active or finished. -/
def statusOk (m : MatchData) : Prop :=
  pyLower m.status = "in_progress" ∨ pyLower m.status = "finished"

/-- The auto-cache test of lines 250-254: a forfeit/walkover result string
or a finished match with an empty per-player statistics dict. -/
def forfeitCond (m : MatchData) : Prop :=
  strContains (pyLower m.matchResult) "forfeit" = true ∨
  (pyLower m.status = "finished" ∧ m.playerStats = some 0)

/-- The URL belongs to a match record of the league data set that the
collector would process past the forfeit/walkover auto-cache test: status
active or finished, and neither a forfeit result string nor a finished
match with empty per-player statistics. -/
def FreshProv (ld : LeagueData) (u : String) : Prop :=
  ∃ lkv ∈ ld.leagues, ∃ skv ∈ lkv.2.subLeagues, ∃ md ∈ skv.2.rounds,
    u = md.matchUrl ∧ statusOk md ∧ ¬ forfeitCond md

/-- A string list in ascending code-point order (adjacent pairs related by
Python `<=`). -/
def StrSorted (l : List String) : Prop :=
  List.Chain' (fun a b => strLe a b = true) l

/-! ## Concrete instances used by witnesses and counterexamples -/

/-- A finished match record with a forfeit result string. -/
def mdForfeit : MatchData :=
  { status := "finished", matchUrl := "mf", matchWebUrl := none,
    matchResult := "Win by Forfeit", playerStats := some 3 }

/-- A sub-league holding only the forfeited match. -/
def svForfeit : SubVal := { rounds := [mdForfeit] }

/-- A league holding only the forfeited match's sub-league. -/
def lvForfeit : LeagueVal := { subLeagues := [("S", svForfeit)] }

/-- A league data set whose single match is finished with a forfeit
result. -/
def ldForfeit : LeagueData := { leagues := [("L", lvForfeit)] }

/-- The empty cache. -/
def cacheEmpty : Cache :=
  { checkedPlayersByMatch := [], checkedBoards := [], checkedMatches := [],
    playerBoardsByMatch := [] }


/-- A league data set with a single in-progress match `m1`. -/
def ldPromo : LeagueData :=
  { leagues := [("L", { subLeagues := [("S", { rounds := [
      { status := "in_progress", matchUrl := "m1", matchWebUrl := none,
        matchResult := "", playerStats := none }] })] })] }

/-- A cache in which `m1`'s only known PMC `alice:white` is already
resolved and `m1`'s board `B` is in the resolved-board set. -/
def cachePromo : Cache :=
  { checkedPlayersByMatch := [("m1", ["alice:white"])],
    checkedBoards := ["B"],
    checkedMatches := [],
    playerBoardsByMatch := [("m1", [("alice:white", "B")])] }

/-- The empty results forest. -/
def emptyResults : Results := { lastUpdated := none, leagues := [] }

/-- A game in which the candidate's own side resigned after 2 ply. -/
def gResign : Game :=
  { white := some { username := some "alice", result := "resigned" },
    black := some { username := some "bob", result := "win" },
    termination := "bob won by resignation", pgn := "1. e4 e5", url := none, gameUrl := none }

/-- An in-progress match `m1` with one roster player on board `B`. -/
def mChurn : MatchData :=
  { status := "in_progress", matchUrl := "m1", matchWebUrl := none,
    matchResult := "", playerStats := none }

/-- A league data set holding only the match `m1`. -/
def ldChurn : LeagueData :=
  { leagues := [("L", { subLeagues := [("S", { rounds := [mChurn] })] })] }

/-- The match-detail fetcher for `ldChurn`: `m1` has the single player
`Alice` playing white on board `B`. -/
def fMChurn : String → Option MatchDetail := fun u =>
  if u = "m1" then
    some { ourPlayers := [{ username := "Alice", playedAsWhite := .str "w",
                            playedAsBlack := .falsy, board := some "B" }] }
  else none

/-- The board fetcher for `ldChurn`: board `B` holds the early
resignation game. -/
def fBChurn : String → Option (List Game) := fun u =>
  if u = "B" then some [gResign] else none

/-- The candidate alice/white in match `m1`. -/
def cAlice : Candidate :=
  { username := "alice", color := "white",
    ref := { matchUrl := "m1", matchWebUrl := none, league := "L", subLeague := "S" },
    isResignedFlag := false }

/-- A game in which the candidate's own side won while the opponent resigned. -/
def gOppResign : Game :=
  { white := some { username := some "alice", result := "win" },
    black := some { username := some "bob", result := "resigned" },
    termination := "alice won by resignation", pgn := "1. e4 e5", url := none, gameUrl := none }

/-- A game whose own-side result field is `"winner"`: not a member of
`DEFINITIVE_RESULTS`, yet it contains the code `"win"` as a substring. -/
def gWinner : Game :=
  { white := some { username := some "alice", result := "winner" },
    black := some { username := some "bob", result := "loss" },
    termination := "", pgn := "", url := none, gameUrl := none }

/-- A concrete game-loop state holding the single candidate `cAlice`. -/
def st0 : GameLoopState :=
  { remaining := [cAlice], checked := [], results := emptyResults }

/-- The empty collector state. -/
def cst0 : CollectState :=
  { checkedMatches := [], playerBoards := [], candidates := [],
    matchPlayerSet := [], matchBoardUrls := [], fetched := [] }

/-- The empty classifier state. -/
def clst0 : ClassifyState :=
  { checked := [], checkedBoards := [], results := emptyResults, fetched := [] }

/-- A fresh in-progress match record with no cached board map. -/
def mFresh : MatchData :=
  { status := "in_progress", matchUrl := "m2", matchWebUrl := none,
    matchResult := "", playerStats := none }

/-- A persisted early-resignation record for alice. -/
def entA : Entry :=
  { username := "alice", color := "white", movesPly := 1,
    gameApi := "gA", boardApi := "B" }

/-- A newly emitted record for bob. -/
def entB : Entry :=
  { username := "bob", color := "black", movesPly := 2,
    gameApi := "gB", boardApi := "B" }

/-- A concrete sub-league holding one match with alice's record. -/
def subS : SubR :=
  { matchItems := [{ matchUrl := "m1", matchWebUrl := none, players := [entA] }] }

/-- A concrete league holding `subS`. -/
def leagueL : LeagueR := { subLeagues := [("S", subS)] }

/-- A concrete persisted results file. -/
def exResults : Results := { lastUpdated := none, leagues := [("L", leagueL)] }

/-- A concrete newly-emitted results forest for the same match: one record
duplicating alice's key and one new record for bob. -/
def newResultsW : Results :=
  { lastUpdated := some "t",
    leagues := [("L", { subLeagues := [("S",
      { matchItems := [{ matchUrl := "m1", matchWebUrl := none,
                         players := [entA, entB] }] })] })] }

/-! # Theorems -/

/-! ## Supporting lemmas: dict/set toolkit and fold preservation -/

theorem mem_insertSet {l : List String} {k x : String} :
    x ∈ insertSet l k ↔ x ∈ l ∨ x = k := by
  unfold insertSet
  by_cases h : k ∈ l
  · rw [if_pos h]
    constructor
    · exact Or.inl
    · rintro (hx | rfl)
      · exact hx
      · exact h
  · rw [if_neg h]
    simp

theorem mem_discardSet {l : List String} {k x : String} :
    x ∈ discardSet l k ↔ x ∈ l ∧ x ≠ k := by
  unfold discardSet
  simp

theorem alFind_alUpdate {α : Type} (k : String) (d : α) (f : α → α)
    (l : List (String × α)) (k2 : String) :
    alFind? (alUpdate k d f l) k2 =
      if k = k2 then some (f ((alFind? l k).getD d)) else alFind? l k2 := by
  induction l with
  | nil => simp [alUpdate, alFind?]
  | cons hd tl ih =>
    obtain ⟨k1, v1⟩ := hd
    by_cases h1 : k1 = k
    · subst h1
      by_cases h2 : k1 = k2 <;> simp [alUpdate, alFind?, h2]
    · by_cases h2 : k1 = k2
      · subst h2
        have hk : ¬ k = k1 := fun he => h1 he.symm
        simp [alUpdate, alFind?, h1, hk]
      · simp [alUpdate, alFind?, h1, h2, ih]

theorem alFind_alRemove {α : Type} (k : String) (l : List (String × α)) (k2 : String) :
    alFind? (alRemove k l) k2 = if k2 = k then none else alFind? l k2 := by
  induction l with
  | nil => simp [alRemove, alFind?]
  | cons hd tl ih =>
    obtain ⟨k1, v1⟩ := hd
    by_cases h1 : k1 = k
    · subst h1
      have hstep : alRemove k1 ((k1, v1) :: tl) = alRemove k1 tl := by
        simp [alRemove]
      rw [hstep, ih]
      by_cases h2 : k2 = k1
      · simp [h2]
      · have h3 : alFind? ((k1, v1) :: tl) k2 = alFind? tl k2 := by
          simp only [alFind?]
          exact if_neg (fun he => h2 he.symm)
        rw [if_neg h2, if_neg h2, h3]
    · have hstep : alRemove k ((k1, v1) :: tl) = (k1, v1) :: alRemove k tl := by
        simp [alRemove, h1]
      rw [hstep]
      by_cases h2 : k1 = k2
      · subst h2
        simp [alFind?, h1]
      · simp only [alFind?, if_neg h2]
        exact ih

theorem alFind_mem {α : Type} {l : List (String × α)} {k : String} {v : α}
    (h : alFind? l k = some v) : (k, v) ∈ l := by
  induction l with
  | nil => simp [alFind?] at h
  | cons hd tl ih =>
    obtain ⟨k1, v1⟩ := hd
    simp only [alFind?] at h
    by_cases h1 : k1 = k
    · subst h1
      rw [if_pos rfl] at h
      obtain rfl := Option.some.inj h
      exact List.mem_cons_self _ _
    · rw [if_neg h1] at h
      exact List.mem_cons_of_mem _ (ih h)

theorem mem_alUpdate {α : Type} {k : String} {d : α} {f : α → α}
    {l : List (String × α)} {p : String × α} (hp : p ∈ alUpdate k d f l) :
    p ∈ l ∨ (p.1 = k ∧ p.2 = f ((alFind? l k).getD d)) := by
  induction l with
  | nil =>
    simp only [alUpdate] at hp
    rcases List.mem_singleton.mp hp with rfl
    right
    exact ⟨rfl, by simp [alFind?]⟩
  | cons hd tl ih =>
    obtain ⟨k1, v1⟩ := hd
    simp only [alUpdate] at hp
    by_cases h1 : k1 = k
    · subst h1
      rw [if_pos rfl] at hp
      rcases List.mem_cons.mp hp with rfl | htl
      · right
        exact ⟨rfl, by simp [alFind?]⟩
      · exact Or.inl (List.mem_cons_of_mem _ htl)
    · rw [if_neg h1] at hp
      rcases List.mem_cons.mp hp with rfl | htl
      · exact Or.inl (List.mem_cons_self _ _)
      · rcases ih htl with hin | hnew
        · exact Or.inl (List.mem_cons_of_mem _ hin)
        · right
          simpa [alFind?, if_neg h1] using hnew

theorem lookupSet_addChecked (m : List (String × List String)) (murl key murl2 : String) :
    lookupSet (addChecked m murl key) murl2 =
      if murl = murl2 then insertSet (lookupSet m murl) key else lookupSet m murl2 := by
  unfold lookupSet addChecked
  rw [alFind_alUpdate]
  by_cases h : murl = murl2
  · rw [if_pos h, if_pos h]
    rfl
  · rw [if_neg h, if_neg h]

theorem mem_lookupSet_addChecked {m : List (String × List String)}
    {murl2 key2 : String} (murl key : String)
    (h : key2 ∈ lookupSet m murl2) :
    key2 ∈ lookupSet (addChecked m murl key) murl2 := by
  rw [lookupSet_addChecked]
  by_cases he : murl = murl2
  · rw [if_pos he, he]
    exact mem_insertSet.mpr (Or.inl h)
  · rwa [if_neg he]

theorem foldl_pres {α β : Type} {f : α → β → α} {P : α → Prop} :
    ∀ (l : List β) (a : α), P a → (∀ x b, b ∈ l → P x → P (f x b)) →
      P (l.foldl f a)
  | [], a, ha, _ => ha
  | b :: bs, a, ha, hstep => by
    simp only [List.foldl_cons]
    exact foldl_pres bs (f a b) (hstep a b (List.mem_cons_self b bs) ha)
      (fun x b2 hb2 hx => hstep x b2 (List.mem_cons_of_mem b hb2) hx)

/-! ## Supporting lemmas: collector enqueue discipline -/

theorem candIn_addCandidate {cbs : List (String × List Candidate)} {burl : String}
    {c c2 : Candidate} (h : CandIn (addCandidate cbs burl c) c2) :
    CandIn cbs c2 ∨ c2 = c := by
  obtain ⟨q, hq, hc2⟩ := h
  rcases mem_alUpdate hq with hin | ⟨h1, h2⟩
  · exact Or.inl ⟨q, hin, hc2⟩
  · rw [h2] at hc2
    rcases List.mem_append.mp hc2 with hold | hnew
    · cases hf : alFind? cbs burl with
      | none =>
        rw [hf] at hold
        simp at hold
      | some v =>
        rw [hf] at hold
        exact Or.inl ⟨(burl, v), alFind_mem hf, hold⟩
    · exact Or.inr (List.mem_singleton.mp hnew)

theorem infixFrom_singleton {c : Char} : ∀ {l : List Char},
    infixFrom [c] l = true ↔ c ∈ l := by
  intro l
  induction l with
  | nil => simp [infixFrom, List.isEmpty]
  | cons a t ih =>
    simp only [infixFrom, Bool.or_eq_true, List.mem_cons]
    constructor
    · rintro (hp | hr)
      · simp only [List.isPrefixOf, Bool.and_eq_true, beq_iff_eq] at hp
        exact Or.inl hp.1
      · exact Or.inr (ih.mp hr)
    · rintro (rfl | hr)
      · left
        simp [List.isPrefixOf]
      · exact Or.inr (ih.mpr hr)

theorem splitColonAux_join : ∀ {l : List Char}, ':' ∈ l →
    (splitColonAux l).1 ++ ':' :: (splitColonAux l).2 = l := by
  intro l h
  induction l with
  | nil => cases h
  | cons c rest ih =>
    by_cases hc : c = ':'
    · subst hc
      simp [splitColonAux]
    · have h2 : ':' ∈ rest := by
        rcases List.mem_cons.mp h with he | he
        · exact absurd he.symm hc
        · exact he
      simp only [splitColonAux, if_neg hc, List.cons_append]
      rw [ih h2]

theorem splitColon_join {s : String} (h : strContains s ":" = true) :
    (splitColon s).1 ++ ":" ++ (splitColon s).2 = s := by
  have h2 : infixFrom [':'] s.toList = true := h
  have hc : ':' ∈ s.toList := infixFrom_singleton.mp h2
  have hj := splitColonAux_join hc
  apply String.ext
  rw [String.data_append, String.data_append]
  show (splitColonAux s.toList).1 ++ [':'] ++ (splitColonAux s.toList).2 = s.data
  rw [List.append_assoc]
  exact hj

theorem enqok_collectCachedEntry {checked : List (String × List String)}
    {cms0 : List String} {murl : String} {ref : MatchRef} {st : CollectState}
    (pb : String × String) (hm : murl ∉ cms0) (href : ref.matchUrl = murl)
    (h : EnqOK checked cms0 st) :
    EnqOK checked cms0 (collectCachedEntry checked murl ref st pb) := by
  obtain ⟨hsub, hc⟩ := h
  simp only [collectCachedEntry]
  by_cases h1 : strContains pb.1 ":" = true
  · rw [if_neg (by simp [h1])]
    by_cases h2 : pb.1 ∈ lookupSet checked murl
    · rw [if_pos h2]
      exact ⟨hsub, hc⟩
    · rw [if_neg h2]
      refine ⟨hsub, ?_⟩
      intro c2 hc2
      rcases candIn_addCandidate hc2 with hold | rfl
      · exact hc c2 hold
      · constructor
        · have hkey : candKey
              { username := (splitColon pb.1).1, color := (splitColon pb.1).2,
                ref := ref, isResignedFlag := false } = pb.1 := splitColon_join h1
          rw [hkey]
          simpa [href] using h2
        · simpa [href] using hm
  · rw [if_pos (by simp [h1])]
    exact ⟨hsub, hc⟩

theorem enqok_collectColor {checked : List (String × List String)}
    {cms0 : List String} {murl : String} {ref : MatchRef} {st : CollectState}
    (username : String) (p : PlayerObj) (fv : PlayedVal) (color_name : String)
    (hm : murl ∉ cms0) (href : ref.matchUrl = murl)
    (h : EnqOK checked cms0 st) :
    EnqOK checked cms0 (collectColor checked murl ref username p fv color_name st) := by
  obtain ⟨hsub, hc⟩ := h
  simp only [collectColor]
  split
  · exact ⟨hsub, hc⟩
  · split
    · split
      · exact ⟨hsub, hc⟩
      · exact ⟨hsub, hc⟩
    · next h2 =>
      split
      · next h3 =>
        refine ⟨hsub, ?_⟩
        intro c2 hc2
        rcases candIn_addCandidate hc2 with hold | rfl
        · exact hc c2 hold
        · constructor
          · simpa [candKey, href] using h2
          · simpa [href] using hm
      · exact ⟨hsub, hc⟩

theorem enqok_collectPlayer {checked : List (String × List String)}
    {cms0 : List String} {murl : String} {ref : MatchRef} {st : CollectState}
    (p : PlayerObj) (hm : murl ∉ cms0) (href : ref.matchUrl = murl)
    (h : EnqOK checked cms0 st) :
    EnqOK checked cms0 (collectPlayer checked murl ref st p) := by
  simp only [collectPlayer]
  split
  · exact h
  · exact enqok_collectColor _ p _ _ hm href (enqok_collectColor _ p _ _ hm href h)

theorem enqok_collectMatch {checked : List (String × List String)}
    {cms0 : List String} (fetchM : String → Option MatchDetail)
    (lk sub : String) (m : MatchData) {st : CollectState}
    (h : EnqOK checked cms0 st) :
    EnqOK checked cms0 (collectMatch checked fetchM lk sub m st) := by
  obtain ⟨hsub, hc⟩ := h
  simp only [collectMatch]
  split
  · exact ⟨hsub, hc⟩
  · split
    · exact ⟨hsub, hc⟩
    · split
      · exact ⟨hsub, hc⟩
      · next hnotin =>
        have hm : m.matchUrl ∉ cms0 := fun hx => hnotin (hsub hx)
        split
        · refine ⟨?_, hc⟩
          intro x hx
          exact mem_insertSet.mpr (Or.inl (hsub hx))
        · split
          · exact foldl_pres _ _ ⟨hsub, hc⟩
              (fun x b _ hx => enqok_collectCachedEntry b hm rfl hx)
          · split
            · exact ⟨hsub, hc⟩
            · exact foldl_pres _ _ ⟨hsub, hc⟩
                (fun x b _ hx => enqok_collectPlayer b hm rfl hx)

theorem enqok_collectAll (checked : List (String × List String))
    (fetchM : String → Option MatchDetail) (ld : LeagueData)
    (cms0 : List String) (pbs0 : List (String × List (String × String))) :
    EnqOK checked cms0 (collectAll checked fetchM ld
      { checkedMatches := cms0, playerBoards := pbs0, candidates := [],
        matchPlayerSet := [], matchBoardUrls := [], fetched := [] }) := by
  unfold collectAll
  apply foldl_pres
  · refine ⟨List.Subset.refl _, ?_⟩
    intro c hc
    obtain ⟨q, hq, _⟩ := hc
    simp at hq
  · intro x lkv _ hx
    unfold collectLeague
    apply foldl_pres _ _ hx
    intro y skv _ hy
    unfold collectSubLeague
    apply foldl_pres _ _ hy
    intro z md _ hz
    exact enqok_collectMatch fetchM lkv.1 skv.1 md hz

/-! ## Supporting lemmas: classifier monotonicity and fetch provenance -/

theorem checkedLe_refl (m : List (String × List String)) : CheckedLe m m :=
  fun _ _ h => h

theorem checkedLe_trans {a b c : List (String × List String)}
    (h1 : CheckedLe a b) (h2 : CheckedLe b c) : CheckedLe a c :=
  fun murl k hk => h2 murl k (h1 murl k hk)

theorem checkedLe_addChecked (m : List (String × List String)) (murl key : String) :
    CheckedLe m (addChecked m murl key) :=
  fun _ _ hk => mem_lookupSet_addChecked murl key hk

theorem processCand_checked_le (threshold : Nat) (mc : String → Nat)
    (boardUrl : String) (idx : Nat) (g : Game) (st : GameLoopState) (c : Candidate) :
    CheckedLe st.checked (processCand threshold mc boardUrl idx g st c).checked := by
  rcases hev : evalCandidate threshold mc boardUrl idx g c with _ | ⟨em, res⟩
  · simp only [processCand, hev]
    exact checkedLe_refl _
  · cases res
    · simp only [processCand, hev, Bool.false_eq_true, if_false]
      exact checkedLe_refl _
    · simp only [processCand, hev, if_true]
      exact checkedLe_addChecked _ _ _

theorem gameLoop_checked_le (threshold : Nat) (mc : String → Nat)
    (boardUrl : String) (idx : Nat) (g : Game) :
    ∀ (snapshot : List Candidate) (st : GameLoopState),
    CheckedLe st.checked
      (snapshot.foldl (processCand threshold mc boardUrl idx g) st).checked := by
  intro snapshot
  induction snapshot with
  | nil => intro st; exact checkedLe_refl _
  | cons c cs ih =>
    intro st
    simp only [List.foldl_cons]
    exact checkedLe_trans (processCand_checked_le threshold mc boardUrl idx g st c)
      (ih _)

theorem processGames_checked_le (threshold : Nat) (mc : String → Nat)
    (boardUrl : String) : ∀ (games : List Game) (idx : Nat) (st : GameLoopState),
    CheckedLe st.checked (processGames threshold mc boardUrl idx games st).checked := by
  intro games
  induction games with
  | nil => intro idx st; exact checkedLe_refl _
  | cons g gs ih =>
    intro idx st
    simp only [processGames]
    exact checkedLe_trans (gameLoop_checked_le threshold mc boardUrl idx g _ st)
      (ih (idx + 1) _)

theorem processGames_checked_le0 (threshold : Nat) (mc : String → Nat) (b : String)
    (games : List Game) (rem : List Candidate) (ch : List (String × List String))
    (res : Results) :
    CheckedLe ch (processGames threshold mc b 0 games
      { remaining := rem, checked := ch, results := res }).checked :=
  processGames_checked_le threshold mc b games 0
    { remaining := rem, checked := ch, results := res }

theorem stragglerFold_checked_le (rem : List Candidate) :
    ∀ (ch : List (String × List String)),
    CheckedLe ch (rem.foldl (fun ch2 c =>
      if c.ref.matchUrl ≠ "" then addChecked ch2 c.ref.matchUrl (candKey c)
      else ch2) ch) := by
  induction rem with
  | nil => intro ch; exact checkedLe_refl _
  | cons c cs ih =>
    intro ch
    simp only [List.foldl_cons]
    refine checkedLe_trans ?_ (ih _)
    split
    · exact checkedLe_addChecked _ _ _
    · exact checkedLe_refl _

theorem classifyBoard_checked_le (threshold : Nat) (mc : String → Nat)
    (fetchB : String → Option (List Game)) (st : ClassifyState)
    (entry : String × List Candidate) :
    CheckedLe st.checked (classifyBoard threshold mc fetchB st entry).checked := by
  simp only [classifyBoard]
  split
  · exact checkedLe_refl _
  · split
    · exact checkedLe_refl _
    · split
      · exact stragglerFold_checked_le _ _
      · split
        · exact checkedLe_refl _
        · split
          · dsimp only
            exact processGames_checked_le0 threshold mc _ _ _ _ _
          · dsimp only
            exact processGames_checked_le0 threshold mc _ _ _ _ _

theorem classifyAll_checked_le (threshold : Nat) (mc : String → Nat)
    (fetchB : String → Option (List Game)) :
    ∀ (cbs : List (String × List Candidate)) (st : ClassifyState),
    CheckedLe st.checked (classifyAll threshold mc fetchB cbs st).checked := by
  intro cbs
  induction cbs with
  | nil => intro st; exact checkedLe_refl _
  | cons e es ih =>
    intro st
    simp only [classifyAll, List.foldl_cons]
    have h2 := ih (classifyBoard threshold mc fetchB st e)
    simp only [classifyAll] at h2
    exact checkedLe_trans (classifyBoard_checked_le threshold mc fetchB st e) h2

theorem classifyBoard_fetched (threshold : Nat) (mc : String → Nat)
    (fetchB : String → Option (List Game)) (st : ClassifyState)
    (b : String) (cands : List Candidate) :
    ∀ u ∈ (classifyBoard threshold mc fetchB st (b, cands)).fetched,
      u ∈ st.fetched ∨
        (u = b ∧ ∃ c ∈ cands, candKey c ∉ lookupSet st.checked c.ref.matchUrl) := by
  intro u hu
  have hwit : cands.filter
      (fun c => candKey c ∉ lookupSet st.checked c.ref.matchUrl) ≠ [] →
      ∃ c ∈ cands, candKey c ∉ lookupSet st.checked c.ref.matchUrl := by
    intro hne
    obtain ⟨c, hcmem⟩ := List.exists_mem_of_ne_nil _ hne
    refine ⟨c, List.mem_of_mem_filter hcmem, ?_⟩
    have := List.of_mem_filter hcmem
    simpa using this
  simp only [classifyBoard] at hu
  split at hu
  · exact Or.inl hu
  · split at hu
    · exact Or.inl hu
    · next hrem =>
      split at hu
      · exact Or.inl hu
      · split at hu
        · dsimp only at hu
          rcases List.mem_append.mp hu with hold | hnew
          · exact Or.inl hold
          · exact Or.inr ⟨List.mem_singleton.mp hnew, hwit hrem⟩
        · split at hu
          all_goals
            dsimp only at hu
            rcases List.mem_append.mp hu with hold | hnew
            · exact Or.inl hold
            · exact Or.inr ⟨List.mem_singleton.mp hnew, hwit hrem⟩

theorem classifyAll_fetched (threshold : Nat) (mc : String → Nat)
    (fetchB : String → Option (List Game)) (cbs : List (String × List Candidate))
    (ch0 : List (String × List String)) (cb0 : List String) (res0 : Results) :
    ∀ u ∈ (classifyAll threshold mc fetchB cbs
      { checked := ch0, checkedBoards := cb0, results := res0,
        fetched := [] }).fetched,
      ∃ p ∈ cbs, p.1 = u ∧ ∃ c ∈ p.2,
        candKey c ∉ lookupSet ch0 c.ref.matchUrl := by
  refine (foldl_pres (f := classifyBoard threshold mc fetchB)
    (P := fun x : ClassifyState =>
      CheckedLe ch0 x.checked ∧
      ∀ u ∈ x.fetched, ∃ p ∈ cbs, p.1 = u ∧ ∃ c ∈ p.2,
        candKey c ∉ lookupSet ch0 c.ref.matchUrl)
    cbs { checked := ch0, checkedBoards := cb0, results := res0, fetched := [] }
    ⟨checkedLe_refl _, ?_⟩ ?_).2
  · intro u hu
    simp at hu
  · rintro x ⟨b, cands⟩ hmem ⟨hle, hfet⟩
    refine ⟨checkedLe_trans hle (classifyBoard_checked_le threshold mc fetchB x _), ?_⟩
    intro u hu
    rcases classifyBoard_fetched threshold mc fetchB x b cands u hu
      with hold | ⟨heq, c, hcm, hck⟩
    · exact hfet u hold
    · exact ⟨(b, cands), hmem, heq.symm, c, hcm, fun hin => hck (hle _ _ hin)⟩

theorem checkedLe_foldl {β : Type}
    (f : List (String × List String) → β → List (String × List String))
    (hmono : ∀ m b, CheckedLe m (f m b)) :
    ∀ (l : List β) (m : List (String × List String)),
      CheckedLe m (l.foldl f m) := by
  intro l
  induction l with
  | nil => intro m; exact checkedLe_refl _
  | cons b bs ih =>
    intro m
    simp only [List.foldl_cons]
    exact checkedLe_trans (hmono m b) (ih _)

theorem checkedLe_prefillPlayer (murl : String) :
    ∀ (ch : List (String × List String)) (p : Entry),
      CheckedLe ch (prefillPlayer murl ch p) := by
  intro ch p
  unfold prefillPlayer
  split
  · exact checkedLe_refl _
  · exact checkedLe_addChecked _ _ _

theorem checkedLe_prefillMatch :
    ∀ (ch : List (String × List String)) (mi : MatchItem),
      CheckedLe ch (prefillMatch ch mi) := by
  intro ch mi
  unfold prefillMatch
  split
  · exact checkedLe_refl _
  · exact checkedLe_foldl _ (checkedLe_prefillPlayer mi.matchUrl) _ _

theorem checkedLe_prefillSub :
    ∀ (ch : List (String × List String)) (skv : String × SubR),
      CheckedLe ch (prefillSub ch skv) := by
  intro ch skv
  exact checkedLe_foldl _ checkedLe_prefillMatch _ _

theorem checkedLe_prefillLeague :
    ∀ (ch : List (String × List String)) (lkv : String × LeagueR),
      CheckedLe ch (prefillLeague ch lkv) := by
  intro ch lkv
  exact checkedLe_foldl _ checkedLe_prefillSub _ _

theorem checkedLe_prefill (ex : Results) (checked : List (String × List String)) :
    CheckedLe checked (prefill ex checked) :=
  checkedLe_foldl _ checkedLe_prefillLeague _ _

theorem checkedLe_initial (existingOut : Option Results) (cache0 : Cache) :
    CheckedLe cache0.checkedPlayersByMatch (initialChecked existingOut cache0) := by
  unfold initialChecked
  cases existingOut with
  | none => exact checkedLe_refl _
  | some ex => exact checkedLe_prefill ex _

/-- C6: a PMC present in the resolved-PMC cache at the start of a run (or
whose match is in the resolved-match set) is never enqueued as a fetch
candidate in that run; and every board the classifier actually fetches
carries at least one candidate that was not resolved at the start of the
run — consequently a board all of whose known PMCs are already resolved
triggers zero remote board fetches. -/
theorem c6_resolved_pmc_never_requeried (threshold : Nat) (mc : String → Nat)
    (fetchM : String → Option MatchDetail) (fetchB : String → Option (List Game))
    (ld : LeagueData) (existingOut : Option Results) (cache0 : Cache) (now : String)
    (murl key : String)
    (hstart : key ∈ lookupSet cache0.checkedPlayersByMatch murl ∨
      murl ∈ cache0.checkedMatches) :
    (∀ c, CandIn
        (runEngine threshold mc fetchM fetchB ld existingOut cache0 now).candidates c →
       ¬ (c.ref.matchUrl = murl ∧ candKey c = key)) ∧
    (∀ u ∈ (runEngine threshold mc fetchM fetchB ld existingOut cache0 now).boardFetches,
       ∃ p ∈ (runEngine threshold mc fetchM fetchB ld existingOut cache0 now).candidates,
         p.1 = u ∧ ∃ c ∈ p.2,
           candKey c ∉ lookupSet cache0.checkedPlayersByMatch c.ref.matchUrl) := by
  have henq := enqok_collectAll (initialChecked existingOut cache0) fetchM ld
    cache0.checkedMatches cache0.playerBoardsByMatch
  constructor
  · intro c hc
    rintro ⟨hcm, hck⟩
    have h2 := henq.2 c hc
    rcases hstart with hk | hm
    · apply h2.1
      rw [hcm, hck]
      exact checkedLe_initial existingOut cache0 murl key hk
    · exact h2.2 (hcm ▸ hm)
  · intro u hu
    have hfetched := classifyAll_fetched threshold mc fetchB
      (collectPhase fetchM ld existingOut cache0).candidates
      (initialChecked existingOut cache0) cache0.checkedBoards
      { lastUpdated := some now, leagues := [] } u hu
    obtain ⟨p, hp, hpu, c, hcm, hck⟩ := hfetched
    exact ⟨p, hp, hpu, c, hcm,
      fun hin => hck (checkedLe_initial existingOut cache0 _ _ hin)⟩

/-- C6 witness: in a cache in which `m1`'s PMC `alice:white` is resolved,
the run over the one-match data set never enqueues that PMC and justifies
every board fetch (here: there are none). -/
theorem c6_witness :
    ("alice:white" ∈ lookupSet cachePromo.checkedPlayersByMatch "m1" ∨
      "m1" ∈ cachePromo.checkedMatches) ∧
    ((∀ c, CandIn (runEngine 2 (fun _ => 0) (fun _ => none) (fun _ => none)
        ldPromo none cachePromo "t1").candidates c →
       ¬ (c.ref.matchUrl = "m1" ∧ candKey c = "alice:white")) ∧
    (∀ u ∈ (runEngine 2 (fun _ => 0) (fun _ => none) (fun _ => none)
        ldPromo none cachePromo "t1").boardFetches,
       ∃ p ∈ (runEngine 2 (fun _ => 0) (fun _ => none) (fun _ => none)
          ldPromo none cachePromo "t1").candidates,
         p.1 = u ∧ ∃ c ∈ p.2,
           candKey c ∉ lookupSet cachePromo.checkedPlayersByMatch c.ref.matchUrl)) :=
  ⟨Or.inl (by decide),
   c6_resolved_pmc_never_requeried 2 (fun _ => 0) (fun _ => none) (fun _ => none)
     ldPromo none cachePromo "t1" "m1" "alice:white" (Or.inl (by decide))⟩

/-! ## Supporting lemmas: promotion and cache save -/

theorem discardFold_notin {b : String} :
    ∀ (dl : List String) (cb : List String), b ∉ cb →
      b ∉ dl.foldl discardSet cb := by
  intro dl
  induction dl with
  | nil => intro cb h; exact h
  | cons d ds ih =>
    intro cb h
    simp only [List.foldl_cons]
    exact ih _ (fun hin => h (mem_discardSet.mp hin).1)

theorem discardFold_removes {b : String} :
    ∀ (dl : List String) (cb : List String), b ∈ dl →
      b ∉ dl.foldl discardSet cb := by
  intro dl
  induction dl with
  | nil => intro cb h; cases h
  | cons d ds ih =>
    intro cb h
    simp only [List.foldl_cons]
    rcases List.mem_cons.mp h with rfl | hds
    · exact discardFold_notin ds _ (fun hin => (mem_discardSet.mp hin).2 rfl)
    · exact ih _ hds

theorem promote_mono_cm {mbu : List (String × List String)} {x : String} :
    ∀ (mps : List (String × List String)) (ps : PromoteState),
      x ∈ ps.checkedMatches → x ∈ (promote mbu mps ps).checkedMatches := by
  intro mps
  induction mps with
  | nil => intro ps h; exact h
  | cons e es ih =>
    intro ps h
    simp only [promote, promoteOne, List.foldl_cons] at ih ⊢
    apply ih
    split
    · exact mem_insertSet.mpr (Or.inl h)
    · exact h

theorem promote_checked_none {mbu : List (String × List String)} {murl : String} :
    ∀ (mps : List (String × List String)) (ps : PromoteState),
      alFind? ps.checked murl = none →
      alFind? (promote mbu mps ps).checked murl = none := by
  intro mps
  induction mps with
  | nil => intro ps h; exact h
  | cons e es ih =>
    intro ps h
    simp only [promote, promoteOne, List.foldl_cons] at ih ⊢
    apply ih
    split
    · show alFind? (alRemove e.1 ps.checked) murl = none
      rw [alFind_alRemove]
      split
      · rfl
      · exact h
    · exact h

theorem promote_cb_notin {mbu : List (String × List String)} {b : String} :
    ∀ (mps : List (String × List String)) (ps : PromoteState),
      b ∉ ps.checkedBoards → b ∉ (promote mbu mps ps).checkedBoards := by
  intro mps
  induction mps with
  | nil => intro ps h; exact h
  | cons e es ih =>
    intro ps h
    simp only [promote, promoteOne, List.foldl_cons] at ih ⊢
    apply ih
    split
    · exact discardFold_notin _ _ h
    · exact h

theorem promote_lookup_eq {mbu : List (String × List String)} {murl : String} :
    ∀ (mps : List (String × List String)) (ps : PromoteState),
      (∀ e ∈ mps, e.1 ≠ murl) →
      lookupSet (promote mbu mps ps).checked murl = lookupSet ps.checked murl := by
  intro mps
  induction mps with
  | nil => intro ps _; rfl
  | cons e es ih =>
    intro ps hne
    simp only [promote, promoteOne, List.foldl_cons] at ih ⊢
    rw [ih _ (fun x hx => hne x (List.mem_cons_of_mem _ hx))]
    split
    · show lookupSet (alRemove e.1 ps.checked) murl = lookupSet ps.checked murl
      unfold lookupSet
      rw [alFind_alRemove]
      rw [if_neg (fun he => hne e (List.mem_cons_self _ _) he.symm)]
    · rfl

theorem alFind_none_iff {α : Type} {l : List (String × α)} {k : String} :
    alFind? l k = none ↔ ∀ p ∈ l, p.1 ≠ k := by
  induction l with
  | nil => simp [alFind?]
  | cons hd tl ih =>
    obtain ⟨k1, v1⟩ := hd
    simp only [alFind?]
    by_cases h1 : k1 = k
    · simp [h1]
    · simp [h1, ih]

theorem removeFold_pres_none {murl : String} :
    ∀ (ms : List String) (pbs : List (String × List (String × String))),
      alFind? pbs murl = none →
      alFind? (ms.foldl (fun pb1 m => alRemove m pb1) pbs) murl = none := by
  intro ms
  induction ms with
  | nil => intro pbs h; exact h
  | cons a as ih =>
    intro pbs h
    simp only [List.foldl_cons]
    apply ih
    rw [alFind_alRemove]
    split
    · rfl
    · exact h

theorem removeFold_none {murl : String} :
    ∀ (cmf : List String) (pbs : List (String × List (String × String))),
      murl ∈ cmf →
      alFind? (cmf.foldl (fun pb1 m => alRemove m pb1) pbs) murl = none := by
  intro cmf
  induction cmf with
  | nil => intro pbs h; cases h
  | cons m ms ih =>
    intro pbs h
    simp only [List.foldl_cons]
    rcases List.mem_cons.mp h with rfl | hms
    · apply removeFold_pres_none
      rw [alFind_alRemove, if_pos rfl]
    · exact ih _ hms

theorem saveCache_pb_none {murl : String} (ch : List (String × List String))
    (cb cmf : List String) (pbs : List (String × List (String × String)))
    (now : String) (h : murl ∈ cmf) :
    alFind? (saveCache ch cb cmf pbs now).playerBoardsByMatch murl = none := by
  unfold saveCache
  apply alFind_none_iff.mpr
  intro p hp
  have hsub := List.mem_of_mem_filter hp
  have hnone := removeFold_none cmf pbs h
  exact alFind_none_iff.mp hnone p hsub

theorem promote_append (mbu : List (String × List String))
    (l1 l2 : List (String × List String)) (ps : PromoteState) :
    promote mbu (l1 ++ l2) ps = promote mbu l2 (promote mbu l1 ps) := by
  simp [promote, List.foldl_append]

theorem promoteOne_promotes (mbu : List (String × List String))
    (ps : PromoteState) (murl : String) (expected : List String)
    (hsub : ∀ k ∈ expected, k ∈ lookupSet ps.checked murl) :
    promoteOne mbu ps (murl, expected) =
      { checked := alRemove murl ps.checked,
        checkedMatches := insertSet ps.checkedMatches murl,
        checkedBoards := (lookupSet mbu murl).foldl discardSet ps.checkedBoards } := by
  unfold promoteOne
  rw [if_pos]
  simp only [List.all_eq_true, decide_eq_true_eq]
  exact hsub

/-- C7 counterexample: in the starting cache, board `B` is `m1`'s board
(per the player→board index) and sits in the resolved-board set; after the
run, `m1` is promoted into the resolved-match set, yet `B` is still in the
resolved-board set — promotion did NOT remove every board of the match,
because `B` was never registered this run (its only player was already
resolved). -/
theorem c7_counterexample :
    alFind? cachePromo.playerBoardsByMatch "m1" = some [("alice:white", "B")] ∧
    "B" ∈ cachePromo.checkedBoards ∧
    cachePromo.checkedMatches = [] ∧
    (runEngine 2 (fun _ => 0) (fun _ => none) (fun _ => none) ldPromo none cachePromo
       "t1").cacheFile.checkedMatches = ["m1"] ∧
    "B" ∈ (runEngine 2 (fun _ => 0) (fun _ => none) (fun _ => none) ldPromo none
       cachePromo "t1").cacheFile.checkedBoards := by
  decide

/-- C7 (amended): at the end of processing, for every match whose full
expected PMC set is a subset of its resolved PMCs, promotion adds the match
to the resolved-match set, deletes that match's entry from the resolved-PMC
mapping, removes every board REGISTERED THIS RUN for the match (its
`match_board_urls` entries — a board all of whose players were resolved
before this run may stay cached) from the resolved-board set, and the cache
save drops that match's entry from the cached player-to-board index. -/
theorem c7_promotion_amended (mbu mps : List (String × List String))
    (ps : PromoteState) (murl : String) (expected : List String)
    (hmem : (murl, expected) ∈ mps)
    (hnodup : (mps.map Prod.fst).Nodup)
    (hsub : ∀ k ∈ expected, k ∈ lookupSet ps.checked murl) :
    murl ∈ (promote mbu mps ps).checkedMatches ∧
    lookupSet (promote mbu mps ps).checked murl = [] ∧
    (∀ b ∈ lookupSet mbu murl, b ∉ (promote mbu mps ps).checkedBoards) ∧
    (∀ (pbs : List (String × List (String × String))) (now : String),
       alFind? (saveCache (promote mbu mps ps).checked
         (promote mbu mps ps).checkedBoards (promote mbu mps ps).checkedMatches
         pbs now).playerBoardsByMatch murl = none) := by
  obtain ⟨l1, l2, rfl⟩ := List.append_of_mem hmem
  have hmap : ((l1 ++ (murl, expected) :: l2).map Prod.fst) =
      l1.map Prod.fst ++ murl :: l2.map Prod.fst := by simp
  rw [hmap] at hnodup
  have hdisj := (List.nodup_append.mp hnodup).2.2
  have hl1 : ∀ e ∈ l1, e.1 ≠ murl := by
    intro e he hcontra
    exact hdisj (List.mem_map.mpr ⟨e, he, hcontra⟩) (List.mem_cons_self _ _)
  have hsplit : promote mbu (l1 ++ (murl, expected) :: l2) ps =
      promote mbu l2 (promoteOne mbu (promote mbu l1 ps) (murl, expected)) := by
    rw [promote_append]
    rfl
  have hlook1 : lookupSet (promote mbu l1 ps).checked murl =
      lookupSet ps.checked murl := promote_lookup_eq l1 ps hl1
  have hstep := promoteOne_promotes mbu (promote mbu l1 ps) murl expected
    (fun k hk => hlook1 ▸ hsub k hk)
  rw [hsplit, hstep]
  have hcm : murl ∈ (insertSet (promote mbu l1 ps).checkedMatches murl) :=
    mem_insertSet.mpr (Or.inr rfl)
  have hnone : alFind? (alRemove murl (promote mbu l1 ps).checked) murl = none := by
    rw [alFind_alRemove, if_pos rfl]
  have hfin_cm := @promote_mono_cm mbu murl l2
    { checked := alRemove murl (promote mbu l1 ps).checked,
      checkedMatches := insertSet (promote mbu l1 ps).checkedMatches murl,
      checkedBoards :=
        (lookupSet mbu murl).foldl discardSet (promote mbu l1 ps).checkedBoards }
    hcm
  have hfin_none := @promote_checked_none mbu murl l2
    { checked := alRemove murl (promote mbu l1 ps).checked,
      checkedMatches := insertSet (promote mbu l1 ps).checkedMatches murl,
      checkedBoards :=
        (lookupSet mbu murl).foldl discardSet (promote mbu l1 ps).checkedBoards }
    hnone
  refine ⟨hfin_cm, ?_, ?_, ?_⟩
  · simp only [lookupSet] at hfin_none ⊢
    simp [hfin_none]
  · intro b hb
    exact @promote_cb_notin mbu b l2
      { checked := alRemove murl (promote mbu l1 ps).checked,
        checkedMatches := insertSet (promote mbu l1 ps).checkedMatches murl,
        checkedBoards :=
          (lookupSet mbu murl).foldl discardSet (promote mbu l1 ps).checkedBoards }
      (discardFold_removes _ _ hb)
  · intro pbs now
    exact saveCache_pb_none _ _ _ pbs now hfin_cm

/-- C7 amended-claim witness: a concrete promotion run with one fully
resolved match updates all four structures as stated. -/
theorem c7_amended_witness :
    "m1" ∈ (promote [("m1", ["B"])] [("m1", ["alice:white"])]
      { checked := [("m1", ["alice:white"])], checkedMatches := [],
        checkedBoards := ["B"] }).checkedMatches ∧
    lookupSet (promote [("m1", ["B"])] [("m1", ["alice:white"])]
      { checked := [("m1", ["alice:white"])], checkedMatches := [],
        checkedBoards := ["B"] }).checked "m1" = [] ∧
    (∀ b ∈ lookupSet [("m1", ["B"])] "m1",
       b ∉ (promote [("m1", ["B"])] [("m1", ["alice:white"])]
        { checked := [("m1", ["alice:white"])], checkedMatches := [],
          checkedBoards := ["B"] }).checkedBoards) ∧
    (∀ (pbs : List (String × List (String × String))) (now : String),
       alFind? (saveCache (promote [("m1", ["B"])] [("m1", ["alice:white"])]
          { checked := [("m1", ["alice:white"])], checkedMatches := [],
            checkedBoards := ["B"] }).checked
         (promote [("m1", ["B"])] [("m1", ["alice:white"])]
          { checked := [("m1", ["alice:white"])], checkedMatches := [],
            checkedBoards := ["B"] }).checkedBoards
         (promote [("m1", ["B"])] [("m1", ["alice:white"])]
          { checked := [("m1", ["alice:white"])], checkedMatches := [],
            checkedBoards := ["B"] }).checkedMatches
         pbs now).playerBoardsByMatch "m1" = none) :=
  c7_promotion_amended [("m1", ["B"])] [("m1", ["alice:white"])]
    { checked := [("m1", ["alice:white"])], checkedMatches := [],
      checkedBoards := ["B"] } "m1" ["alice:white"]
    (by decide) (by decide) (by decide)

/-- C1: for every game evaluated against a candidate (i.e. whose lower-cased
username matches a side of the game), the classifier emits an
early-resignation record if and only if the candidate's own side's `result`
field equals `"resigned"` and the move count returned by the move counter
for the game's PGN is at most the threshold.  In particular a move count of
exactly `threshold` qualifies and `threshold + 1` does not, since the
right-hand side is exactly `mc g.pgn ≤ threshold`. -/
theorem c1_early_resignation_iff (threshold idx : Nat) (mc : String → Nat)
    (boardUrl : String) (g : Game) (c : Candidate)
    (h : sideUserLower g.white = some c.username ∨
         sideUserLower g.black = some c.username) :
    (∃ e, evalCandidate threshold mc boardUrl idx g c = some (some e, true)) ↔
      ownResultField g c.username = "resigned" ∧ mc g.pgn ≤ threshold := by
  have hm : ¬ (sideUserLower g.white ≠ some c.username ∧
      sideUserLower g.black ≠ some c.username) := by
    rcases h with h | h <;> simp [h]
  unfold evalCandidate
  rw [if_neg hm]
  simp only [Bool.or_eq_true, decide_eq_true_eq]
  by_cases hres : ownResultField g c.username = "resigned"
  · by_cases hmov : mc g.pgn ≤ threshold
    · have hc : gameFinished (ownResultField g c.username) = true ∨
          threshold < mc g.pgn := Or.inl (by rw [hres]; decide)
      rw [if_pos hc, if_pos ⟨hres, hmov⟩]
      exact iff_of_true ⟨_, rfl⟩ ⟨hres, hmov⟩
    · have hc : gameFinished (ownResultField g c.username) = true ∨
          threshold < mc g.pgn := Or.inr (Nat.lt_of_not_le hmov)
      rw [if_pos hc, if_neg (fun hand => hmov hand.2)]
      simp [hmov]
  · constructor
    · rintro ⟨e, he⟩
      split at he <;> simp [hres] at he
    · rintro ⟨h1, _⟩
      exact absurd h1 hres

/-- C1 witness: a concrete resigned game with move count exactly equal to
the threshold is emitted. -/
theorem c1_witness :
    ∃ e, evalCandidate 2 (fun _ => 2) "B" 0 gResign cAlice = some (some e, true) :=
  (c1_early_resignation_iff 2 0 (fun _ => 2) "B" gResign cAlice
    (Or.inl (by decide))).mpr ⟨by decide, by decide⟩

/-- C2: if the result field of the candidate's own side is not `"resigned"`,
no early-resignation record is emitted for that candidate from that game,
for every opponent result, termination string and PGN text (the statement
quantifies over the whole game subject only to the own-result hypothesis). -/
theorem c2_no_false_positives (threshold idx : Nat) (mc : String → Nat)
    (boardUrl : String) (g : Game) (c : Candidate)
    (h : ownResultField g c.username ≠ "resigned") :
    ∀ em res, evalCandidate threshold mc boardUrl idx g c = some (em, res) →
      em = none := by
  intro em res he
  unfold evalCandidate at he
  by_cases hm : (sideUserLower g.white ≠ some c.username ∧
      sideUserLower g.black ≠ some c.username)
  · rw [if_pos hm] at he
    exact Option.noConfusion he
  · rw [if_neg hm] at he
    simp only [Bool.or_eq_true, decide_eq_true_eq] at he
    by_cases hc : (gameFinished (ownResultField g c.username) = true ∨
        threshold < mc g.pgn)
    · rw [if_pos hc, if_neg (fun hand => h hand.1)] at he
      injection he with h1
      injection h1 with h2 h3
      exact h2.symm
    · rw [if_neg hc] at he
      injection he with h1
      injection h1 with h2 h3
      exact h2.symm

/-- C2 witness: the candidate won while the opponent resigned and the
termination string reads "won by resignation"; nothing is emitted. -/
theorem c2_witness :
    ownResultField gOppResign cAlice.username ≠ "resigned" ∧
      ∀ em res, evalCandidate 2 (fun _ => 1) "B" 0 gOppResign cAlice =
        some (em, res) → em = none :=
  ⟨by decide, c2_no_false_positives 2 0 (fun _ => 1) "B" gOppResign cAlice (by decide)⟩

/-- C3 counterexample: the claim says a candidate is marked resolved exactly
when its own result field is ONE OF the enumerated definitive codes or the
move count exceeds the threshold.  The code instead tests SUBSTRING
containment (`any(r in result_field ...)`, line 408): the result field
`"winner"` is not a member of `DEFINITIVE_RESULTS` and the move count 0 does
not exceed the threshold 2, yet the candidate is marked resolved (added to
the resolved-PMC cache and removed from the remaining list). -/
theorem c3_counterexample :
    ownResultField gWinner cAlice.username = "winner" ∧
    "winner" ∉ DEFINITIVE_RESULTS ∧
    ¬ (2 < (fun _ : String => (0 : Nat)) gWinner.pgn) ∧
    processCand 2 (fun _ => 0) "B" 0 gWinner st0 cAlice =
      { remaining := [], checked := [("m1", ["alice:white"])],
        results := emptyResults } := by
  decide

/-- C3 (amended): a candidate is marked resolved (added to the resolved-PMC
cache and removed from the outstanding candidate list) exactly when its own
side's result field is non-empty and CONTAINS one of the enumerated
definitive result codes as a substring (`gameFinished`), or its move count
exceeds the threshold; otherwise the whole loop state — cache, remaining
list and results — is left unchanged for re-examination in a later run. -/
theorem c3_resolution_amended (threshold idx : Nat) (mc : String → Nat)
    (boardUrl : String) (g : Game) (st : GameLoopState) (c : Candidate)
    (h : sideUserLower g.white = some c.username ∨
         sideUserLower g.black = some c.username) :
    ((gameFinished (ownResultField g c.username) = true ∨ threshold < mc g.pgn) →
       (processCand threshold mc boardUrl idx g st c).checked =
           addChecked st.checked c.ref.matchUrl (candKey c) ∧
       (processCand threshold mc boardUrl idx g st c).remaining =
           st.remaining.filter (fun x =>
             ¬ (x.username = c.username ∧ x.color = c.color ∧
                x.ref.matchUrl = c.ref.matchUrl))) ∧
    (¬ (gameFinished (ownResultField g c.username) = true ∨ threshold < mc g.pgn) →
       processCand threshold mc boardUrl idx g st c = st) := by
  have hm : ¬ (sideUserLower g.white ≠ some c.username ∧
      sideUserLower g.black ≠ some c.username) := by
    rcases h with h | h <;> simp [h]
  constructor
  · intro hcond
    have hfa : (gameFinished (ownResultField g c.username) ||
        decide (threshold < mc g.pgn)) = true := by
      rcases hcond with h1 | h1 <;> simp [h1]
    unfold processCand evalCandidate
    rw [if_neg hm]
    simp only [hfa, if_true]
    constructor <;> simp
  · intro hcond
    push_neg at hcond
    have hfa : (gameFinished (ownResultField g c.username) ||
        decide (threshold < mc g.pgn)) = false := by
      simp [hcond.1, Nat.not_lt.mpr hcond.2]
    unfold processCand evalCandidate
    rw [if_neg hm]
    simp [hfa]

/-- C5: a failed remote fetch commits nothing.  First conjunct: when the
match-detail fetch of a not-yet-resolved, non-forfeit match with no cached
board map fails, the collector state is unchanged except for the fetch-log
entry — no cache entry, no expected-PMC set, no candidate is committed for
the match.  Second conjunct: when the board-detail fetch of a board with
outstanding candidates fails, the classifier state is unchanged except for
the fetch-log entry — no candidate is marked resolved, no record is
emitted, the board is not added to the resolved-board set.  Both pieces of
work are therefore retried on the next run. -/
theorem c5_fetch_failure_commits_nothing :
    (∀ (checked : List (String × List String)) (fetchM : String → Option MatchDetail)
       (lk sub : String) (m : MatchData) (st : CollectState),
       (pyLower m.status = "in_progress" ∨ pyLower m.status = "finished") →
       m.matchUrl ≠ "" →
       m.matchUrl ∉ st.checkedMatches →
       ¬ (strContains (pyLower m.matchResult) "forfeit" = true ∨
          (pyLower m.status = "finished" ∧ m.playerStats = some 0)) →
       alFind? st.playerBoards m.matchUrl = none →
       fetchM m.matchUrl = none →
       collectMatch checked fetchM lk sub m st =
         { st with fetched := st.fetched ++ [m.matchUrl] }) ∧
    (∀ (threshold : Nat) (mc : String → Nat) (fetchB : String → Option (List Game))
       (st : ClassifyState) (boardUrl : String) (cands : List Candidate),
       cands ≠ [] →
       cands.filter (fun c => candKey c ∉ lookupSet st.checked c.ref.matchUrl) ≠ [] →
       boardUrl ∉ st.checkedBoards →
       fetchB boardUrl = none →
       classifyBoard threshold mc fetchB st (boardUrl, cands) =
         { st with fetched := st.fetched ++ [boardUrl] }) := by
  constructor
  · intro checked fetchM lk sub m st hstatus hurl hnotin hnof hpb hfetch
    unfold collectMatch
    rw [if_neg (by rcases hstatus with h1 | h1 <;> simp [h1]), if_neg hurl,
      if_neg hnotin, if_neg hnof, hpb, hfetch]
  · intro threshold mc fetchB st boardUrl cands hne hrem hnb hfetch
    unfold classifyBoard
    rw [if_neg hne, if_neg hrem, if_neg hnb, hfetch]

/-- C5 witness: concrete failing fetchers leave the concrete collector and
classifier states untouched apart from the fetch log. -/
theorem c5_witness :
    collectMatch [] (fun _ => none) "L" "S" mFresh cst0 =
        { cst0 with fetched := ["m2"] } ∧
    classifyBoard 2 (fun _ => 0) (fun _ => none) clst0 ("B", [cAlice]) =
        { clst0 with fetched := ["B"] } :=
  ⟨c5_fetch_failure_commits_nothing.1 [] (fun _ => none) "L" "S" mFresh cst0
      (Or.inl (by decide)) (by decide) (by decide) (by decide) (by decide) rfl,
   c5_fetch_failure_commits_nothing.2 2 (fun _ => 0) (fun _ => none) clst0 "B" [cAlice]
      (by decide) (by decide) (by decide) rfl⟩

/-- C3 amended-claim witness: a concrete resigned game resolves the
candidate, updating the cache and the remaining list as stated. -/
theorem c3_amended_witness :
    (processCand 2 (fun _ => 2) "B" 0 gResign st0 cAlice).checked =
        addChecked st0.checked cAlice.ref.matchUrl (candKey cAlice) ∧
    (processCand 2 (fun _ => 2) "B" 0 gResign st0 cAlice).remaining =
        st0.remaining.filter (fun x =>
          ¬ (x.username = cAlice.username ∧ x.color = cAlice.color ∧
             x.ref.matchUrl = cAlice.ref.matchUrl)) :=
  (c3_resolution_amended 2 0 (fun _ => 2) "B" gResign st0 cAlice
    (Or.inl (by decide))).1 (Or.inl (by decide))

/-! ## Supporting lemmas: the result merger -/

theorem listExt_refl {α : Type} {R : α → α → Prop} (hrefl : ∀ x, R x x)
    (xs : List α) : ListExt R xs xs :=
  ⟨Nat.le_refl _, fun _ _ _ => hrefl _⟩

theorem listExt_trans {α : Type} {R : α → α → Prop}
    (htrans : ∀ x y z, R x y → R y z → R x z)
    {xs ys zs : List α} (h1 : ListExt R xs ys) (h2 : ListExt R ys zs) :
    ListExt R xs zs :=
  ⟨Nat.le_trans h1.1 h2.1, fun i hx hz =>
    htrans _ _ _ (h1.2 i hx (Nat.lt_of_lt_of_le hx h1.1))
      (h2.2 i (Nat.lt_of_lt_of_le hx h1.1) hz)⟩

theorem listExt_cons {α : Type} {R : α → α → Prop} {x y : α} {xs ys : List α}
    (hxy : R x y) (h : ListExt R xs ys) : ListExt R (x :: xs) (y :: ys) := by
  refine ⟨Nat.succ_le_succ h.1, ?_⟩
  intro i hx hy
  cases i with
  | zero => exact hxy
  | succ n => exact h.2 n (Nat.lt_of_succ_lt_succ hx) (Nat.lt_of_succ_lt_succ hy)

theorem listExt_nil {α : Type} {R : α → α → Prop} (ys : List α) :
    ListExt R [] ys :=
  ⟨Nat.zero_le _, fun i hx _ => absurd hx (by simp)⟩

theorem matchExt_refl (m : MatchItem) : MatchExt m m :=
  ⟨rfl, rfl, [], by simp, by simp⟩

theorem matchExt_trans {a b c : MatchItem} (h1 : MatchExt a b)
    (h2 : MatchExt b c) : MatchExt a c := by
  obtain ⟨hu1, hw1, ext1, he1, hk1⟩ := h1
  obtain ⟨hu2, hw2, ext2, he2, hk2⟩ := h2
  refine ⟨hu2.trans hu1, hw2.trans hw1, ext1 ++ ext2,
    by rw [he2, he1, List.append_assoc], ?_⟩
  intro e he
  rcases List.mem_append.mp he with h5 | h5
  · exact hk1 e h5
  · intro hin
    apply hk2 e h5
    rw [he1, List.map_append]
    exact List.mem_append.mpr (Or.inl hin)

theorem entryExt_refl {α : Type} {R : α → α → Prop} (hrefl : ∀ x, R x x)
    (p : String × α) : EntryExt R p p := ⟨rfl, hrefl _⟩

theorem entryExt_trans {α : Type} {R : α → α → Prop}
    (htrans : ∀ x y z : α, R x y → R y z → R x z)
    {p q r : String × α} (h1 : EntryExt R p q) (h2 : EntryExt R q r) :
    EntryExt R p r := ⟨h2.1.trans h1.1, htrans _ _ _ h1.2 h2.2⟩

theorem subExt_refl (s : SubR) : SubExt s s := listExt_refl matchExt_refl _

theorem subExt_trans {a b c : SubR} (h1 : SubExt a b) (h2 : SubExt b c) :
    SubExt a c :=
  listExt_trans (R := MatchExt) (fun _ _ _ hx hy => matchExt_trans hx hy) h1 h2

theorem leagueExt_refl (L : LeagueR) : LeagueExt L L :=
  listExt_refl (entryExt_refl subExt_refl) _

theorem leagueExt_trans {a b c : LeagueR} (h1 : LeagueExt a b)
    (h2 : LeagueExt b c) : LeagueExt a c :=
  listExt_trans (R := EntryExt SubExt) (fun _ _ _ hx hy =>
    entryExt_trans (R := SubExt) (fun _ _ _ hp hq => subExt_trans hp hq) hx hy) h1 h2

theorem mergeMatchInto_ext : ∀ (ms : List MatchItem) (item : MatchItem),
    ListExt MatchExt ms (mergeMatchInto ms item) := by
  intro ms item
  induction ms with
  | nil => exact listExt_nil _
  | cons dm rest ih =>
    simp only [mergeMatchInto]
    split
    · refine listExt_cons ?_ (listExt_refl matchExt_refl rest)
      refine ⟨rfl, rfl, item.players.filter
        (fun p => dedupKey p ∉ dm.players.map dedupKey), rfl, ?_⟩
      intro e he
      have := List.of_mem_filter he
      simpa using this
    · exact listExt_cons (matchExt_refl dm) ih

theorem mergeMatchInto_nodup :
    ∀ (ms : List MatchItem) (item : MatchItem),
    (∀ mi ∈ ms, (mi.players.map dedupKey).Nodup) →
    (item.players.map dedupKey).Nodup →
    ∀ mi ∈ mergeMatchInto ms item, (mi.players.map dedupKey).Nodup := by
  intro ms item
  induction ms with
  | nil =>
    intro _ hitem mi hmi
    simp only [mergeMatchInto] at hmi
    rcases List.mem_singleton.mp hmi with rfl
    exact hitem
  | cons dm rest ih =>
    intro hms hitem mi hmi
    simp only [mergeMatchInto] at hmi
    split at hmi
    · rcases List.mem_cons.mp hmi with rfl | hrest
      · show ((dm.players ++ item.players.filter
            (fun p => dedupKey p ∉ dm.players.map dedupKey)).map dedupKey).Nodup
        rw [List.map_append]
        apply List.Nodup.append
        · exact hms dm (List.mem_cons_self _ _)
        · exact List.Nodup.sublist
            (List.Sublist.map dedupKey (List.filter_sublist _)) hitem
        · intro a ha hb
          obtain ⟨e, hef, heq⟩ := List.mem_map.mp hb
          have hpred := List.of_mem_filter hef
          simp only [decide_not, Bool.not_eq_true', decide_eq_false_iff_not] at hpred
          exact hpred (heq ▸ ha)
      · exact hms mi (List.mem_cons_of_mem _ hrest)
    · rcases List.mem_cons.mp hmi with rfl | hrest
      · exact hms mi (List.mem_cons_self _ _)
      · exact ih (fun x hx => hms x (List.mem_cons_of_mem _ hx)) hitem mi hrest

theorem mergeFold_ext : ∀ (items : List MatchItem) (ms : List MatchItem),
    ListExt MatchExt ms (items.foldl mergeMatchInto ms) := by
  intro items
  induction items with
  | nil => intro ms; exact listExt_refl matchExt_refl ms
  | cons it its ih =>
    intro ms
    simp only [List.foldl_cons]
    exact listExt_trans (R := MatchExt) (fun _ _ _ hx hy => matchExt_trans hx hy)
      (mergeMatchInto_ext ms it) (ih _)

theorem mergeFold_nodup : ∀ (items : List MatchItem) (ms : List MatchItem),
    (∀ mi ∈ items, (mi.players.map dedupKey).Nodup) →
    (∀ mi ∈ ms, (mi.players.map dedupKey).Nodup) →
    ∀ mi ∈ items.foldl mergeMatchInto ms, (mi.players.map dedupKey).Nodup := by
  intro items
  induction items with
  | nil => intro ms _ hms mi hmi; exact hms mi hmi
  | cons it its ih =>
    intro ms hitems hms mi hmi
    simp only [List.foldl_cons] at hmi
    exact ih _ (fun x hx => hitems x (List.mem_cons_of_mem _ hx))
      (mergeMatchInto_nodup ms it hms (hitems it (List.mem_cons_self _ _))) mi hmi

theorem listExt_alUpdate {α : Type} {R : α → α → Prop} (hrefl : ∀ x, R x x)
    (k : String) (d : α) (f : α → α) (hf : ∀ v, R v (f v)) :
    ∀ l : List (String × α), ListExt (EntryExt R) l (alUpdate k d f l) := by
  intro l
  induction l with
  | nil => exact listExt_nil _
  | cons hd tl ih =>
    obtain ⟨k1, v1⟩ := hd
    simp only [alUpdate]
    split
    · exact listExt_cons ⟨rfl, hf v1⟩ (listExt_refl (entryExt_refl hrefl) tl)
    · exact listExt_cons (entryExt_refl hrefl _) ih

theorem alUpdate_pres_prop {α : Type} (Q : α → Prop) (k : String) (d : α)
    (f : α → α) (l : List (String × α)) (hl : ∀ p ∈ l, Q p.2)
    (hf : ∀ v, Q v → Q (f v)) (hd : Q d) :
    ∀ p ∈ alUpdate k d f l, Q p.2 := by
  intro p hp
  rcases mem_alUpdate hp with hin | ⟨h1, h2⟩
  · exact hl p hin
  · rw [h2]
    apply hf
    cases hfind : alFind? l k with
    | none => exact hd
    | some v => exact hl (k, v) (alFind_mem hfind)

theorem subFold_ext : ∀ (subs : List (String × SubR)) (dsl : List (String × SubR)),
    ListExt (EntryExt SubExt) dsl (subs.foldl mergeSubInto dsl) := by
  intro subs
  induction subs with
  | nil => intro dsl; exact listExt_refl (entryExt_refl subExt_refl) dsl
  | cons skv rest ih =>
    intro dsl
    simp only [List.foldl_cons]
    refine listExt_trans (R := EntryExt SubExt)
      (fun _ _ _ hx hy =>
        entryExt_trans (R := SubExt) (fun _ _ _ hp hq => subExt_trans hp hq) hx hy)
      ?_ (ih _)
    unfold mergeSubInto
    exact listExt_alUpdate subExt_refl _ _ _
      (fun ds => mergeFold_ext skv.2.matchItems ds.matchItems) dsl

theorem leagueFold_ext :
    ∀ (lgs : List (String × LeagueR)) (dest : List (String × LeagueR)),
    ListExt (EntryExt LeagueExt) dest (lgs.foldl mergeLeagueInto dest) := by
  intro lgs
  induction lgs with
  | nil => intro dest; exact listExt_refl (entryExt_refl leagueExt_refl) dest
  | cons lkv rest ih =>
    intro dest
    simp only [List.foldl_cons]
    refine listExt_trans (R := EntryExt LeagueExt)
      (fun _ _ _ hx hy =>
        entryExt_trans (R := LeagueExt)
          (fun _ _ _ hp hq => leagueExt_trans hp hq) hx hy)
      ?_ (ih _)
    unfold mergeLeagueInto
    exact listExt_alUpdate leagueExt_refl _ _ _
      (fun dl => subFold_ext lkv.2.subLeagues dl.subLeagues) dest

theorem mergeResults_ext (newR existing : Results) :
    ResultsExt existing (mergeResults newR existing) :=
  leagueFold_ext newR.leagues existing.leagues

theorem mergeSubInto_pres (dsl : List (String × SubR)) (skv : String × SubR)
    (hl : ∀ p ∈ dsl, ∀ mi ∈ p.2.matchItems, (mi.players.map dedupKey).Nodup)
    (hnew : ∀ mi ∈ skv.2.matchItems, (mi.players.map dedupKey).Nodup) :
    ∀ p ∈ mergeSubInto dsl skv, ∀ mi ∈ p.2.matchItems,
      (mi.players.map dedupKey).Nodup := by
  unfold mergeSubInto
  apply alUpdate_pres_prop
      (fun ds : SubR => ∀ mi ∈ ds.matchItems, (mi.players.map dedupKey).Nodup)
  · exact hl
  · intro v hv
    exact mergeFold_nodup skv.2.matchItems v.matchItems hnew hv
  · intro mi hmi
    simp [emptySub] at hmi

theorem mergeLeagueInto_pres (dest : List (String × LeagueR)) (lkv : String × LeagueR)
    (hl : ∀ p ∈ dest, ∀ skv ∈ p.2.subLeagues, ∀ mi ∈ skv.2.matchItems,
      (mi.players.map dedupKey).Nodup)
    (hnew : ∀ skv ∈ lkv.2.subLeagues, ∀ mi ∈ skv.2.matchItems,
      (mi.players.map dedupKey).Nodup) :
    ∀ p ∈ mergeLeagueInto dest lkv, ∀ skv ∈ p.2.subLeagues,
      ∀ mi ∈ skv.2.matchItems, (mi.players.map dedupKey).Nodup := by
  unfold mergeLeagueInto
  apply alUpdate_pres_prop
      (fun dl : LeagueR => ∀ skv ∈ dl.subLeagues, ∀ mi ∈ skv.2.matchItems,
        (mi.players.map dedupKey).Nodup)
  · exact hl
  · intro v hv
    show ∀ skv ∈ lkv.2.subLeagues.foldl mergeSubInto v.subLeagues, _
    have main : ∀ (subs : List (String × SubR)) (dsl : List (String × SubR)),
        (∀ skv ∈ subs, ∀ mi ∈ skv.2.matchItems, (mi.players.map dedupKey).Nodup) →
        (∀ p ∈ dsl, ∀ mi ∈ p.2.matchItems, (mi.players.map dedupKey).Nodup) →
        ∀ p ∈ subs.foldl mergeSubInto dsl, ∀ mi ∈ p.2.matchItems,
          (mi.players.map dedupKey).Nodup := by
      intro subs
      induction subs with
      | nil => intro dsl _ hdsl p hp; exact hdsl p hp
      | cons skv rest ih =>
        intro dsl hsubs hdsl p hp
        simp only [List.foldl_cons] at hp
        exact ih _ (fun x hx => hsubs x (List.mem_cons_of_mem _ hx))
          (mergeSubInto_pres dsl skv hdsl (hsubs skv (List.mem_cons_self _ _))) p hp
    exact main lkv.2.subLeagues v.subLeagues hnew hv
  · intro skv hskv
    simp [emptyLeague] at hskv

theorem mergeResults_nodup (newR existing : Results)
    (hwfNew : NodupKeys newR) (hwfOld : NodupKeys existing) :
    NodupKeys (mergeResults newR existing) := by
  intro lkv hlkv
  have main : ∀ (lgs : List (String × LeagueR)) (dest : List (String × LeagueR)),
      (∀ p ∈ lgs, ∀ skv ∈ p.2.subLeagues, ∀ mi ∈ skv.2.matchItems,
        (mi.players.map dedupKey).Nodup) →
      (∀ p ∈ dest, ∀ skv ∈ p.2.subLeagues, ∀ mi ∈ skv.2.matchItems,
        (mi.players.map dedupKey).Nodup) →
      ∀ p ∈ lgs.foldl mergeLeagueInto dest, ∀ skv ∈ p.2.subLeagues,
        ∀ mi ∈ skv.2.matchItems, (mi.players.map dedupKey).Nodup := by
    intro lgs
    induction lgs with
    | nil => intro dest _ hdest p hp; exact hdest p hp
    | cons x rest ih =>
      intro dest hlgs hdest p hp
      simp only [List.foldl_cons] at hp
      exact ih _ (fun y hy => hlgs y (List.mem_cons_of_mem _ hy))
        (mergeLeagueInto_pres dest x hdest (hlgs x (List.mem_cons_self _ _))) p hp
  exact main newR.leagues existing.leagues hwfNew hwfOld lkv hlkv

theorem listExt_tail {α : Type} {R : α → α → Prop} {x y : α} {xs ys : List α}
    (h : ListExt R (x :: xs) (y :: ys)) : ListExt R xs ys :=
  ⟨Nat.le_of_succ_le_succ h.1, fun i hx hy =>
    h.2 (i + 1) (Nat.succ_lt_succ hx) (Nat.succ_lt_succ hy)⟩

theorem listExt_alFind {α : Type} {R : α → α → Prop} :
    ∀ {xs ys : List (String × α)}, ListExt (EntryExt R) xs ys →
    ∀ {k : String} {v : α}, alFind? xs k = some v →
    ∃ v2, alFind? ys k = some v2 ∧ R v v2 := by
  intro xs
  induction xs with
  | nil =>
    intro ys h k v hf
    simp [alFind?] at hf
  | cons x xs2 ih =>
    intro ys h k v hf
    cases ys with
    | nil => exact absurd h.1 (by simp)
    | cons y ys2 =>
      have h0 : EntryExt R x y := h.2 0 (by simp) (by simp)
      simp only [alFind?] at hf ⊢
      by_cases hk : x.1 = k
      · rw [if_pos hk] at hf
        obtain rfl := Option.some.inj hf
        exact ⟨y.2, by rw [if_pos (h0.1.trans hk)], h0.2⟩
      · rw [if_neg hk] at hf
        obtain ⟨v2, hfind, hr⟩ := ih (listExt_tail h) hf
        exact ⟨v2, by rw [if_neg (fun he => hk (h0.1.symm.trans he))]; exact hfind, hr⟩

theorem matchExt_filter_key {m m2 : MatchItem} (h : MatchExt m m2)
    {K : String × String × String} (hK : K ∈ m.players.map dedupKey) :
    m2.players.filter (fun e => dedupKey e = K) =
      m.players.filter (fun e => dedupKey e = K) := by
  obtain ⟨_, _, ext, he, hk⟩ := h
  rw [he, List.filter_append]
  have hnil : ext.filter (fun e => dedupKey e = K) = [] := by
    rw [List.filter_eq_nil_iff]
    intro e he2
    simp only [decide_eq_true_eq]
    intro hKe
    exact hk e he2 (hKe ▸ hK)
  rw [hnil, List.append_nil]

theorem reach_fold {β : Type}
    (f : List (String × List String) → β → List (String × List String))
    (hmono : ∀ m b, CheckedLe m (f m b)) {l : List β} {b : β} (hb : b ∈ l)
    {key murl : String}
    (hafter : ∀ m, key ∈ lookupSet (f m b) murl) :
    ∀ m, key ∈ lookupSet (l.foldl f m) murl := by
  obtain ⟨l1, l2, rfl⟩ := List.append_of_mem hb
  intro m
  rw [List.foldl_append, List.foldl_cons]
  exact checkedLe_foldl f hmono l2 _ murl key (hafter _)

theorem prefillPlayer_adds (murl : String) (p : Entry) (huser : p.username ≠ "") :
    ∀ ch, (pyLower p.username ++ ":" ++ p.color) ∈
      lookupSet (prefillPlayer murl ch p) murl := by
  intro ch
  unfold prefillPlayer
  rw [if_neg huser, lookupSet_addChecked, if_pos rfl]
  exact mem_insertSet.mpr (Or.inr rfl)

theorem prefillMatch_adds (mi : MatchItem) (hmurl : mi.matchUrl ≠ "")
    {p : Entry} (hp : p ∈ mi.players) (huser : p.username ≠ "") :
    ∀ ch, (pyLower p.username ++ ":" ++ p.color) ∈
      lookupSet (prefillMatch ch mi) mi.matchUrl := by
  intro ch
  unfold prefillMatch
  rw [if_neg hmurl]
  exact reach_fold _ (checkedLe_prefillPlayer _) hp
    (prefillPlayer_adds mi.matchUrl p huser) ch

theorem prefillSub_adds (skv : String × SubR) {mi : MatchItem}
    (hmi : mi ∈ skv.2.matchItems) (hmurl : mi.matchUrl ≠ "")
    {p : Entry} (hp : p ∈ mi.players) (huser : p.username ≠ "") :
    ∀ ch, (pyLower p.username ++ ":" ++ p.color) ∈
      lookupSet (prefillSub ch skv) mi.matchUrl := by
  intro ch
  exact reach_fold _ checkedLe_prefillMatch hmi
    (prefillMatch_adds mi hmurl hp huser) ch

theorem prefillLeague_adds (lkv : String × LeagueR) {skv : String × SubR}
    (hskv : skv ∈ lkv.2.subLeagues) {mi : MatchItem}
    (hmi : mi ∈ skv.2.matchItems) (hmurl : mi.matchUrl ≠ "")
    {p : Entry} (hp : p ∈ mi.players) (huser : p.username ≠ "") :
    ∀ ch, (pyLower p.username ++ ":" ++ p.color) ∈
      lookupSet (prefillLeague ch lkv) mi.matchUrl := by
  intro ch
  exact reach_fold _ checkedLe_prefillSub hskv
    (prefillSub_adds skv hmi hmurl hp huser) ch

/-- C8: the result merger never removes any league, sub-league, match or
player record present in the prior collection (the merged forest
positionally extends it, `ResultsExt`, whose `MatchExt` component also says
every appended player record's (lower-cased username, color, game
reference) key was absent from the match's prior player list), and — given
key-duplicate-free inputs, which `insert_result` guarantees for the newly
emitted records — the merged player lists remain key-duplicate-free, so a
record already present by its key is never re-appended. -/
theorem c8_merge_append_only (newR existing : Results)
    (hwfNew : NodupKeys newR) (hwfOld : NodupKeys existing) :
    ResultsExt existing (mergeResults newR existing) ∧
    NodupKeys (mergeResults newR existing) :=
  ⟨mergeResults_ext newR existing,
   mergeResults_nodup newR existing hwfNew hwfOld⟩

/-- C8 witness: merging a forest that repeats alice's record and adds
bob's record extends the persisted file without duplication. -/
theorem c8_witness :
    ResultsExt exResults (mergeResults newResultsW exResults) ∧
    NodupKeys (mergeResults newResultsW exResults) :=
  c8_merge_append_only newResultsW exResults
    (by unfold NodupKeys; decide) (by unfold NodupKeys; decide)

/-- C10: before classification, every player record of the existing
persisted results file is added to the resolved-PMC map under its match,
keyed by the lower-cased `username:color`; and independently of any cache
state, a record whose key is already present in a match of the persisted
file is never re-emitted into that file — merging any newly emitted
results leaves the match's records with that key exactly as they were. -/
theorem c10_results_file_never_reemitted :
    (∀ (existing : Results) (checked : List (String × List String)),
       ∀ lkv ∈ existing.leagues, ∀ skv ∈ lkv.2.subLeagues,
       ∀ mi ∈ skv.2.matchItems, mi.matchUrl ≠ "" →
       ∀ p ∈ mi.players, p.username ≠ "" →
       (pyLower p.username ++ ":" ++ p.color) ∈
         lookupSet (prefill existing checked) mi.matchUrl) ∧
    (∀ (newR existing : Results) (lk sk : String) (L : LeagueR) (S : SubR),
       alFind? existing.leagues lk = some L →
       alFind? L.subLeagues sk = some S →
       ∃ L2 S2, alFind? (mergeResults newR existing).leagues lk = some L2 ∧
         alFind? L2.subLeagues sk = some S2 ∧
         ∀ (i : Nat) (hx : i < S.matchItems.length),
           ∃ hy : i < S2.matchItems.length,
             ∀ K ∈ (S.matchItems.get ⟨i, hx⟩).players.map dedupKey,
               (S2.matchItems.get ⟨i, hy⟩).players.filter
                   (fun e => dedupKey e = K) =
                 (S.matchItems.get ⟨i, hx⟩).players.filter
                   (fun e => dedupKey e = K)) := by
  constructor
  · intro existing checked lkv hlkv skv hskv mi hmi hmurl p hp huser
    exact reach_fold _ checkedLe_prefillLeague hlkv
      (prefillLeague_adds lkv hskv hmi hmurl hp huser) checked
  · intro newR existing lk sk L S hfL hfS
    have hext := mergeResults_ext newR existing
    obtain ⟨L2, hfL2, hLext⟩ := listExt_alFind hext hfL
    obtain ⟨S2, hfS2, hSext⟩ := listExt_alFind hLext hfS
    refine ⟨L2, S2, hfL2, hfS2, ?_⟩
    intro i hx
    refine ⟨Nat.lt_of_lt_of_le hx hSext.1, ?_⟩
    intro K hK
    exact matchExt_filter_key (hSext.2 i hx (Nat.lt_of_lt_of_le hx hSext.1)) hK

/-- C10 witness: alice's persisted record is prefilled under `m1` keyed
`alice:white`, and a merge that tries to re-add her record leaves `m1`'s
records with her key unchanged. -/
theorem c10_witness :
    (pyLower entA.username ++ ":" ++ entA.color) ∈
      lookupSet (prefill exResults []) "m1" ∧
    ∃ L2 S2, alFind? (mergeResults newResultsW exResults).leagues "L" = some L2 ∧
      alFind? L2.subLeagues "S" = some S2 ∧
      ∀ (i : Nat) (hx : i < subS.matchItems.length),
        ∃ hy : i < S2.matchItems.length,
          ∀ K ∈ (subS.matchItems.get ⟨i, hx⟩).players.map dedupKey,
            (S2.matchItems.get ⟨i, hy⟩).players.filter
                (fun e => dedupKey e = K) =
              (subS.matchItems.get ⟨i, hx⟩).players.filter
                (fun e => dedupKey e = K) :=
  ⟨c10_results_file_never_reemitted.1 exResults [] ("L", leagueL) (by decide)
     ("S", subS) (by decide)
     { matchUrl := "m1", matchWebUrl := none, players := [entA] } (by decide)
     (by decide) entA (by decide) (by decide),
   c10_results_file_never_reemitted.2 newResultsW exResults "L" "S" leagueL subS
     (by decide) (by decide)⟩

/-! ## Supporting lemmas: collector provenance for auto-cached matches -/

theorem reach_fold_prop {α β : Type} (f : α → β → α) (P : α → Prop)
    (hpres : ∀ a b, P a → P (f a b)) {l : List β} {b : β} (hb : b ∈ l)
    (hafter : ∀ a, P (f a b)) : ∀ a, P (l.foldl f a) := by
  obtain ⟨l1, l2, rfl⟩ := List.append_of_mem hb
  intro a
  rw [List.foldl_append, List.foldl_cons]
  have hrest : ∀ (l3 : List β) (a2 : α), P a2 → P (l3.foldl f a2) := by
    intro l3
    induction l3 with
    | nil => intro a2 h; exact h
    | cons x xs ih =>
      intro a2 h
      simp only [List.foldl_cons]
      exact ih _ (hpres a2 x h)
  exact hrest l2 _ (hafter _)

theorem statusOk_of_not (m : MatchData)
    (h : ¬(pyLower m.status ≠ "in_progress" ∧ pyLower m.status ≠ "finished")) :
    statusOk m := by
  by_cases h1 : pyLower m.status = "in_progress"
  · exact Or.inl h1
  · by_cases h2 : pyLower m.status = "finished"
    · exact Or.inr h2
    · exact absurd ⟨h1, h2⟩ h

theorem collectCachedEntry_frame (checked : List (String × List String))
    (murl : String) (ref : MatchRef) (st : CollectState) (pb : String × String) :
    (collectCachedEntry checked murl ref st pb).checkedMatches = st.checkedMatches ∧
    (collectCachedEntry checked murl ref st pb).fetched = st.fetched := by
  simp only [collectCachedEntry]
  split
  · exact ⟨rfl, rfl⟩
  · split
    · exact ⟨rfl, rfl⟩
    · exact ⟨rfl, rfl⟩

theorem collectCachedEntry_cand {checked : List (String × List String)}
    {murl : String} {ref : MatchRef} {st : CollectState} {pb : String × String}
    {c : Candidate}
    (h : CandIn (collectCachedEntry checked murl ref st pb).candidates c) :
    CandIn st.candidates c ∨ c.ref = ref := by
  simp only [collectCachedEntry] at h
  split at h
  · exact Or.inl h
  · split at h
    · exact Or.inl h
    · rcases candIn_addCandidate h with hold | rfl
      · exact Or.inl hold
      · exact Or.inr rfl

theorem collectColor_frame (checked : List (String × List String))
    (murl : String) (ref : MatchRef) (username : String) (p : PlayerObj)
    (fv : PlayedVal) (color : String) (st : CollectState) :
    (collectColor checked murl ref username p fv color st).checkedMatches =
      st.checkedMatches ∧
    (collectColor checked murl ref username p fv color st).fetched = st.fetched := by
  simp only [collectColor]
  split
  · exact ⟨rfl, rfl⟩
  · split
    · split
      · exact ⟨rfl, rfl⟩
      · exact ⟨rfl, rfl⟩
    · split
      · exact ⟨rfl, rfl⟩
      · exact ⟨rfl, rfl⟩

theorem collectColor_cand {checked : List (String × List String)}
    {murl : String} {ref : MatchRef} {username : String} {p : PlayerObj}
    {fv : PlayedVal} {color : String} {st : CollectState} {c : Candidate}
    (h : CandIn (collectColor checked murl ref username p fv color st).candidates c) :
    CandIn st.candidates c ∨ c.ref = ref := by
  simp only [collectColor] at h
  split at h
  · exact Or.inl h
  · split at h
    · split at h
      · exact Or.inl h
      · exact Or.inl h
    · split at h
      · rcases candIn_addCandidate h with hold | rfl
        · exact Or.inl hold
        · exact Or.inr rfl
      · exact Or.inl h

theorem collectPlayer_frame (checked : List (String × List String))
    (murl : String) (ref : MatchRef) (st : CollectState) (p : PlayerObj) :
    (collectPlayer checked murl ref st p).checkedMatches = st.checkedMatches ∧
    (collectPlayer checked murl ref st p).fetched = st.fetched := by
  simp only [collectPlayer]
  split
  · exact ⟨rfl, rfl⟩
  · constructor
    · rw [(collectColor_frame _ _ _ _ _ _ _ _).1,
        (collectColor_frame _ _ _ _ _ _ _ _).1]
    · rw [(collectColor_frame _ _ _ _ _ _ _ _).2,
        (collectColor_frame _ _ _ _ _ _ _ _).2]

theorem collectPlayer_cand {checked : List (String × List String)}
    {murl : String} {ref : MatchRef} {st : CollectState} {p : PlayerObj}
    {c : Candidate}
    (h : CandIn (collectPlayer checked murl ref st p).candidates c) :
    CandIn st.candidates c ∨ c.ref = ref := by
  simp only [collectPlayer] at h
  split at h
  · exact Or.inl h
  · rcases collectColor_cand h with h2 | h2
    · exact collectColor_cand h2
    · exact Or.inr h2

theorem collectMatch_cm_mono (checked : List (String × List String))
    (fetchM : String → Option MatchDetail) (lk sub : String) (m : MatchData)
    {st : CollectState} {x : String} (h : x ∈ st.checkedMatches) :
    x ∈ (collectMatch checked fetchM lk sub m st).checkedMatches := by
  simp only [collectMatch]
  split
  · exact h
  · split
    · exact h
    · split
      · exact h
      · split
        · exact mem_insertSet.mpr (Or.inl h)
        · split
          · next pbMap heq =>
            have main := foldl_pres
              (f := collectCachedEntry checked m.matchUrl
                { matchUrl := m.matchUrl, matchWebUrl := m.matchWebUrl,
                  league := lk, subLeague := sub })
              (P := fun s : CollectState => x ∈ s.checkedMatches)
              pbMap st h
              (fun a b _ ha => by
                dsimp only
                rw [(collectCachedEntry_frame _ _ _ _ _).1]
                exact ha)
            exact main
          · split
            · exact h
            · next detail heq =>
              have main := foldl_pres
                (f := collectPlayer checked m.matchUrl
                  { matchUrl := m.matchUrl, matchWebUrl := m.matchWebUrl,
                    league := lk, subLeague := sub })
                (P := fun s : CollectState => x ∈ s.checkedMatches)
                detail.ourPlayers
                { st with fetched := st.fetched ++ [m.matchUrl] } h
                (fun a b _ ha => by
                  dsimp only
                  rw [(collectPlayer_frame _ _ _ _ _).1]
                  exact ha)
              exact main

theorem collectMatch_cm_adds (checked : List (String × List String))
    (fetchM : String → Option MatchDetail) (lk sub : String) (m : MatchData)
    (st : CollectState) (hst : statusOk m) (hne : m.matchUrl ≠ "")
    (hf : forfeitCond m) :
    m.matchUrl ∈ (collectMatch checked fetchM lk sub m st).checkedMatches := by
  unfold forfeitCond at hf
  simp only [collectMatch]
  rw [if_neg (by rcases hst with h | h <;> simp [h]), if_neg hne]
  by_cases hmem : m.matchUrl ∈ st.checkedMatches
  · rw [if_pos hmem]
    exact hmem
  · rw [if_neg hmem, if_pos hf]
    exact mem_insertSet.mpr (Or.inr rfl)

theorem collectMatch_fetched (checked : List (String × List String))
    (fetchM : String → Option MatchDetail) (lk sub : String) (m : MatchData)
    (st : CollectState) :
    ∀ u ∈ (collectMatch checked fetchM lk sub m st).fetched,
      u ∈ st.fetched ∨ (u = m.matchUrl ∧ statusOk m ∧ ¬ forfeitCond m) := by
  intro u hu
  simp only [collectMatch] at hu
  split at hu
  · exact Or.inl hu
  · next hstatus =>
    have hok : statusOk m := statusOk_of_not m hstatus
    split at hu
    · exact Or.inl hu
    · split at hu
      · exact Or.inl hu
      · split at hu
        · exact Or.inl hu
        · next hnof =>
          have hnof2 : ¬ forfeitCond m := by
            unfold forfeitCond
            exact hnof
          split at hu
          · next pbMap heq =>
            have main := foldl_pres
              (f := collectCachedEntry checked m.matchUrl
                { matchUrl := m.matchUrl, matchWebUrl := m.matchWebUrl,
                  league := lk, subLeague := sub })
              (P := fun s : CollectState => s.fetched = st.fetched)
              pbMap st rfl
              (fun a b _ ha => by
                dsimp only
                rw [(collectCachedEntry_frame _ _ _ _ _).2]
                exact ha)
            rw [main] at hu
            exact Or.inl hu
          · split at hu
            · rcases List.mem_append.mp hu with hold | hnew
              · exact Or.inl hold
              · exact Or.inr ⟨List.mem_singleton.mp hnew, hok, hnof2⟩
            · next detail heq =>
              have main := foldl_pres
                (f := collectPlayer checked m.matchUrl
                  { matchUrl := m.matchUrl, matchWebUrl := m.matchWebUrl,
                    league := lk, subLeague := sub })
                (P := fun s : CollectState => s.fetched = st.fetched ++ [m.matchUrl])
                detail.ourPlayers
                { st with fetched := st.fetched ++ [m.matchUrl] } rfl
                (fun a b _ ha => by
                  dsimp only
                  rw [(collectPlayer_frame _ _ _ _ _).2]
                  exact ha)
              rw [main] at hu
              rcases List.mem_append.mp hu with hold | hnew
              · exact Or.inl hold
              · exact Or.inr ⟨List.mem_singleton.mp hnew, hok, hnof2⟩

theorem collectMatch_cand (checked : List (String × List String))
    (fetchM : String → Option MatchDetail) (lk sub : String) (m : MatchData)
    (st : CollectState) :
    ∀ c, CandIn (collectMatch checked fetchM lk sub m st).candidates c →
      CandIn st.candidates c ∨
        (c.ref.matchUrl = m.matchUrl ∧ statusOk m ∧ ¬ forfeitCond m) := by
  intro c hc
  simp only [collectMatch] at hc
  split at hc
  · exact Or.inl hc
  · next hstatus =>
    have hok : statusOk m := statusOk_of_not m hstatus
    split at hc
    · exact Or.inl hc
    · split at hc
      · exact Or.inl hc
      · split at hc
        · exact Or.inl hc
        · next hnof =>
          have hnof2 : ¬ forfeitCond m := by
            unfold forfeitCond
            exact hnof
          split at hc
          · next pbMap heq =>
            have main := foldl_pres
              (f := collectCachedEntry checked m.matchUrl
                { matchUrl := m.matchUrl, matchWebUrl := m.matchWebUrl,
                  league := lk, subLeague := sub })
              (P := fun s : CollectState => ∀ c2, CandIn s.candidates c2 →
                CandIn st.candidates c2 ∨ c2.ref.matchUrl = m.matchUrl)
              pbMap st (fun c2 hc2 => Or.inl hc2)
              (fun a b _ ha c2 hc2 => by
                rcases collectCachedEntry_cand hc2 with hold | hrefl
                · exact ha c2 hold
                · right
                  rw [hrefl])
            rcases main c hc with hold | hurl
            · exact Or.inl hold
            · exact Or.inr ⟨hurl, hok, hnof2⟩
          · split at hc
            · exact Or.inl hc
            · next detail heq =>
              have main := foldl_pres
                (f := collectPlayer checked m.matchUrl
                  { matchUrl := m.matchUrl, matchWebUrl := m.matchWebUrl,
                    league := lk, subLeague := sub })
                (P := fun s : CollectState => ∀ c2, CandIn s.candidates c2 →
                  CandIn st.candidates c2 ∨ c2.ref.matchUrl = m.matchUrl)
                detail.ourPlayers
                { st with fetched := st.fetched ++ [m.matchUrl] }
                (fun c2 hc2 => Or.inl hc2)
                (fun a b _ ha c2 hc2 => by
                  rcases collectPlayer_cand hc2 with hold | hrefl
                  · exact ha c2 hold
                  · right
                    rw [hrefl])
              rcases main c hc with hold | hurl
              · exact Or.inl hold
              · exact Or.inr ⟨hurl, hok, hnof2⟩

/-! ## Supporting lemmas: emission provenance -/

theorem mem_addEntryToMatches {murl : String} {web : Option String} {e : Entry} :
    ∀ {ms : List MatchItem} {mi : MatchItem}, mi ∈ addEntryToMatches murl web e ms →
      (∃ m0 ∈ ms, mi.matchUrl = m0.matchUrl) ∨ mi.matchUrl = murl := by
  intro ms
  induction ms with
  | nil =>
    intro mi hmi
    rcases List.mem_singleton.mp hmi with rfl
    exact Or.inr rfl
  | cons dm rest ih =>
    intro mi hmi
    simp only [addEntryToMatches] at hmi
    split at hmi
    · next hdm =>
      rcases List.mem_cons.mp hmi with rfl | hrest
      · left
        refine ⟨dm, List.mem_cons_self _ _, ?_⟩
        split
        · rfl
        · rfl
      · exact Or.inl ⟨mi, List.mem_cons_of_mem _ hrest, rfl⟩
    · rcases List.mem_cons.mp hmi with rfl | hrest
      · exact Or.inl ⟨mi, List.mem_cons_self _ _, rfl⟩
      · rcases ih hrest with ⟨m0, hm0, heq⟩ | hurl
        · exact Or.inl ⟨m0, List.mem_cons_of_mem _ hm0, heq⟩
        · exact Or.inr hurl

theorem matchUrlIn_insert_result {r : Results} {L S mk : String} {ref : MatchRef}
    {e : Entry} {u : String}
    (h : MatchUrlIn (insert_result r L S mk ref e) u) :
    MatchUrlIn r u ∨ u = ref.matchUrl := by
  obtain ⟨lkv, hlkv, skv, hskv, mi, hmi, hurl⟩ := h
  rcases mem_alUpdate hlkv with hin | ⟨hk1, hv1⟩
  · exact Or.inl ⟨lkv, hin, skv, hskv, mi, hmi, hurl⟩
  · rw [hv1] at hskv
    rcases mem_alUpdate hskv with hin2 | ⟨hk2, hv2⟩
    · cases hf : alFind? r.leagues L with
      | none =>
        rw [hf] at hin2
        simp [emptyLeague] at hin2
      | some v0 =>
        rw [hf] at hin2
        exact Or.inl ⟨(L, v0), alFind_mem hf, skv, hin2, mi, hmi, hurl⟩
    · rw [hv2] at hmi
      rcases mem_addEntryToMatches hmi with ⟨m0, hm0, heq⟩ | hu2
      · cases hf : alFind? r.leagues L with
        | none =>
          rw [hf] at hm0
          simp [emptyLeague, emptySub, alFind?] at hm0
        | some v0 =>
          rw [hf] at hm0
          simp only [Option.getD_some] at hm0
          cases hf2 : alFind? v0.subLeagues S with
          | none =>
            rw [hf2] at hm0
            simp [emptySub] at hm0
          | some w0 =>
            rw [hf2] at hm0
            simp only [Option.getD_some] at hm0
            exact Or.inl ⟨(L, v0), alFind_mem hf, (S, w0), alFind_mem hf2, m0, hm0,
              heq.symm.trans hurl⟩
      · exact Or.inr (hurl.symm.trans hu2)

theorem matchUrlIn_processCand {threshold : Nat} {mc : String → Nat}
    {boardUrl : String} {idx : Nat} {g : Game} {st : GameLoopState} {c : Candidate}
    {u : String}
    (h : MatchUrlIn (processCand threshold mc boardUrl idx g st c).results u) :
    MatchUrlIn st.results u ∨ u = c.ref.matchUrl := by
  rcases hev : evalCandidate threshold mc boardUrl idx g c with _ | ⟨em, res⟩
  · simp only [processCand, hev] at h
    exact Or.inl h
  · cases em with
    | none =>
      cases res
      · simp only [processCand, hev, Bool.false_eq_true, if_false] at h
        exact Or.inl h
      · simp only [processCand, hev, if_true] at h
        exact Or.inl h
    | some e2 =>
      cases res
      · simp only [processCand, hev, Bool.false_eq_true, if_false] at h
        exact matchUrlIn_insert_result h
      · simp only [processCand, hev, if_true] at h
        exact matchUrlIn_insert_result h

theorem processCand_remaining_subset (threshold : Nat) (mc : String → Nat)
    (boardUrl : String) (idx : Nat) (g : Game) (st : GameLoopState) (c : Candidate) :
    ∀ x ∈ (processCand threshold mc boardUrl idx g st c).remaining,
      x ∈ st.remaining := by
  intro x hx
  rcases hev : evalCandidate threshold mc boardUrl idx g c with _ | ⟨em, res⟩
  · simp only [processCand, hev] at hx
    exact hx
  · cases res
    · simp only [processCand, hev, Bool.false_eq_true, if_false] at hx
      exact hx
    · simp only [processCand, hev, if_true] at hx
      exact List.mem_of_mem_filter hx

theorem foldSnap_remaining_subset (threshold : Nat) (mc : String → Nat)
    (boardUrl : String) (idx : Nat) (g : Game) :
    ∀ (snap : List Candidate) (st : GameLoopState),
      ∀ x ∈ (snap.foldl (processCand threshold mc boardUrl idx g) st).remaining,
        x ∈ st.remaining := by
  intro snap
  induction snap with
  | nil => intro st x hx; exact hx
  | cons c cs ih =>
    intro st x hx
    simp only [List.foldl_cons] at hx
    exact processCand_remaining_subset threshold mc boardUrl idx g st c x (ih _ x hx)

theorem matchUrlIn_foldSnap (threshold : Nat) (mc : String → Nat)
    (boardUrl : String) (idx : Nat) (g : Game) :
    ∀ (snap : List Candidate) (st : GameLoopState) (u : String),
      MatchUrlIn (snap.foldl (processCand threshold mc boardUrl idx g) st).results u →
      MatchUrlIn st.results u ∨ ∃ c ∈ snap, u = c.ref.matchUrl := by
  intro snap
  induction snap with
  | nil => intro st u h; exact Or.inl h
  | cons c cs ih =>
    intro st u h
    simp only [List.foldl_cons] at h
    rcases ih _ u h with h2 | ⟨c2, hc2, hu2⟩
    · rcases matchUrlIn_processCand h2 with h3 | h3
      · exact Or.inl h3
      · exact Or.inr ⟨c, List.mem_cons_self _ _, h3⟩
    · exact Or.inr ⟨c2, List.mem_cons_of_mem _ hc2, hu2⟩

theorem matchUrlIn_processGames (threshold : Nat) (mc : String → Nat)
    (boardUrl : String) :
    ∀ (games : List Game) (idx : Nat) (st : GameLoopState) (u : String),
      MatchUrlIn (processGames threshold mc boardUrl idx games st).results u →
      MatchUrlIn st.results u ∨ ∃ c ∈ st.remaining, u = c.ref.matchUrl := by
  intro games
  induction games with
  | nil => intro idx st u h; exact Or.inl h
  | cons g gs ih =>
    intro idx st u h
    simp only [processGames] at h
    rcases ih (idx + 1) _ u h with h2 | ⟨c, hc, hu⟩
    · rcases matchUrlIn_foldSnap threshold mc boardUrl idx g _ _ u h2
        with h3 | ⟨c, hc, hu⟩
      · exact Or.inl h3
      · exact Or.inr ⟨c, hc, hu⟩
    · exact Or.inr
        ⟨c, foldSnap_remaining_subset threshold mc boardUrl idx g _ st c hc, hu⟩

theorem matchUrlIn_classifyBoard (threshold : Nat) (mc : String → Nat)
    (fetchB : String → Option (List Game)) (st : ClassifyState)
    (entry : String × List Candidate) (u : String)
    (h : MatchUrlIn (classifyBoard threshold mc fetchB st entry).results u) :
    MatchUrlIn st.results u ∨ ∃ c ∈ entry.2, u = c.ref.matchUrl := by
  simp only [classifyBoard] at h
  split at h
  · exact Or.inl h
  · split at h
    · exact Or.inl h
    · split at h
      · exact Or.inl h
      · split at h
        · exact Or.inl h
        · split at h
          all_goals
            dsimp only at h
            rcases matchUrlIn_processGames threshold mc entry.1 _ 0 _ u h
              with h2 | ⟨c, hc, hu⟩
            · exact Or.inl h2
            · exact Or.inr ⟨c, List.mem_of_mem_filter hc, hu⟩

theorem matchUrlIn_classifyAll (threshold : Nat) (mc : String → Nat)
    (fetchB : String → Option (List Game)) :
    ∀ (cbs : List (String × List Candidate)) (st : ClassifyState) (u : String),
      MatchUrlIn (classifyAll threshold mc fetchB cbs st).results u →
      MatchUrlIn st.results u ∨ ∃ p ∈ cbs, ∃ c ∈ p.2, u = c.ref.matchUrl := by
  intro cbs
  induction cbs with
  | nil => intro st u h; exact Or.inl h
  | cons p ps ih =>
    intro st u h
    simp only [classifyAll, List.foldl_cons] at h
    have h0 := ih (classifyBoard threshold mc fetchB st p) u (by
      simpa [classifyAll] using h)
    rcases h0 with h2 | ⟨p2, hp2, c, hc, hu⟩
    · rcases matchUrlIn_classifyBoard threshold mc fetchB st p u h2 with h3 | ⟨c, hc, hu⟩
      · exact Or.inl h3
      · exact Or.inr ⟨p, List.mem_cons_self _ _, c, hc, hu⟩
    · exact Or.inr ⟨p2, List.mem_cons_of_mem _ hp2, c, hc, hu⟩

theorem mem_insertSorted {x y : String} :
    ∀ {l : List String}, y ∈ insertSorted x l ↔ y ∈ l ∨ y = x := by
  intro l
  induction l with
  | nil => simp [insertSorted]
  | cons a t ih =>
    simp only [insertSorted]
    split
    · constructor
      · intro h
        rcases List.mem_cons.mp h with rfl | h2
        · exact Or.inr rfl
        · exact Or.inl h2
      · rintro (h2 | rfl)
        · exact List.mem_cons_of_mem _ h2
        · exact List.mem_cons_self _ _
    · constructor
      · intro h
        rcases List.mem_cons.mp h with rfl | h2
        · exact Or.inl (List.mem_cons_self _ _)
        · rcases ih.mp h2 with h3 | rfl
          · exact Or.inl (List.mem_cons_of_mem _ h3)
          · exact Or.inr rfl
      · rintro (h2 | rfl)
        · rcases List.mem_cons.mp h2 with rfl | h3
          · exact List.mem_cons_self _ _
          · exact List.mem_cons_of_mem _ (ih.mpr (Or.inl h3))
        · exact List.mem_cons_of_mem _ (ih.mpr (Or.inr rfl))

theorem mem_sortStrings {x : String} :
    ∀ {l : List String}, x ∈ sortStrings l ↔ x ∈ l := by
  intro l
  induction l with
  | nil => simp [sortStrings]
  | cons a t ih =>
    simp only [sortStrings]
    constructor
    · intro h
      rcases mem_insertSorted.mp h with h2 | rfl
      · exact List.mem_cons_of_mem _ (ih.mp h2)
      · exact List.mem_cons_self _ _
    · intro h
      rcases List.mem_cons.mp h with rfl | h2
      · exact mem_insertSorted.mpr (Or.inr rfl)
      · exact mem_insertSorted.mpr (Or.inl (ih.mpr h2))

theorem collectSubLeague_cm_mono (checked : List (String × List String))
    (fetchM : String → Option MatchDetail) (lk : String)
    (st : CollectState) (skv : String × SubVal) {x : String}
    (h : x ∈ st.checkedMatches) :
    x ∈ (collectSubLeague checked fetchM lk st skv).checkedMatches := by
  simp only [collectSubLeague]
  have main := foldl_pres
    (f := fun st2 m => collectMatch checked fetchM lk skv.1 m st2)
    (P := fun s : CollectState => x ∈ s.checkedMatches)
    skv.2.rounds st h
    (fun a m _ ha => by
      dsimp only
      exact collectMatch_cm_mono checked fetchM lk skv.1 m ha)
  exact main

theorem collectLeague_cm_mono (checked : List (String × List String))
    (fetchM : String → Option MatchDetail)
    (st : CollectState) (lkv : String × LeagueVal) {x : String}
    (h : x ∈ st.checkedMatches) :
    x ∈ (collectLeague checked fetchM st lkv).checkedMatches := by
  simp only [collectLeague]
  have main := foldl_pres
    (f := collectSubLeague checked fetchM lkv.1)
    (P := fun s : CollectState => x ∈ s.checkedMatches)
    lkv.2.subLeagues st h
    (fun a skv _ ha => collectSubLeague_cm_mono checked fetchM lkv.1 a skv ha)
  exact main

theorem collectSubLeague_cm_adds (checked : List (String × List String))
    (fetchM : String → Option MatchDetail) (lk : String)
    (skv : String × SubVal) {md : MatchData} (hm : md ∈ skv.2.rounds)
    (hst : statusOk md) (hne : md.matchUrl ≠ "") (hf : forfeitCond md) :
    ∀ st, md.matchUrl ∈ (collectSubLeague checked fetchM lk st skv).checkedMatches := by
  intro st
  simp only [collectSubLeague]
  have main := reach_fold_prop
    (fun st2 m => collectMatch checked fetchM lk skv.1 m st2)
    (fun s : CollectState => md.matchUrl ∈ s.checkedMatches)
    (fun a m ha => collectMatch_cm_mono checked fetchM lk skv.1 m ha)
    hm
    (fun a => collectMatch_cm_adds checked fetchM lk skv.1 md a hst hne hf)
  exact main st

theorem collectLeague_cm_adds (checked : List (String × List String))
    (fetchM : String → Option MatchDetail) (lkv : String × LeagueVal)
    {skv : String × SubVal} (hs : skv ∈ lkv.2.subLeagues)
    {md : MatchData} (hm : md ∈ skv.2.rounds)
    (hst : statusOk md) (hne : md.matchUrl ≠ "") (hf : forfeitCond md) :
    ∀ st, md.matchUrl ∈ (collectLeague checked fetchM st lkv).checkedMatches := by
  intro st
  simp only [collectLeague]
  have main := reach_fold_prop
    (collectSubLeague checked fetchM lkv.1)
    (fun s : CollectState => md.matchUrl ∈ s.checkedMatches)
    (fun a skv2 ha => collectSubLeague_cm_mono checked fetchM lkv.1 a skv2 ha)
    hs
    (fun a => collectSubLeague_cm_adds checked fetchM lkv.1 skv hm hst hne hf a)
  exact main st

theorem collectAll_cm_adds (checked : List (String × List String))
    (fetchM : String → Option MatchDetail) (ld : LeagueData)
    {lkv : String × LeagueVal} (hl : lkv ∈ ld.leagues)
    {skv : String × SubVal} (hs : skv ∈ lkv.2.subLeagues)
    {md : MatchData} (hm : md ∈ skv.2.rounds)
    (hst : statusOk md) (hne : md.matchUrl ≠ "") (hf : forfeitCond md) :
    ∀ st, md.matchUrl ∈ (collectAll checked fetchM ld st).checkedMatches := by
  intro st
  simp only [collectAll]
  have main := reach_fold_prop
    (collectLeague checked fetchM)
    (fun s : CollectState => md.matchUrl ∈ s.checkedMatches)
    (fun a lkv2 ha => collectLeague_cm_mono checked fetchM a lkv2 ha)
    hl
    (fun a => collectLeague_cm_adds checked fetchM lkv hs hm hst hne hf a)
  exact main st

theorem collectSubLeague_fetched_prov (checked : List (String × List String))
    (fetchM : String → Option MatchDetail) (lk : String)
    (st : CollectState) (skv : String × SubVal) :
    ∀ u ∈ (collectSubLeague checked fetchM lk st skv).fetched,
      u ∈ st.fetched ∨ ∃ md ∈ skv.2.rounds,
        u = md.matchUrl ∧ statusOk md ∧ ¬ forfeitCond md := by
  simp only [collectSubLeague]
  have main := foldl_pres
    (f := fun st2 m => collectMatch checked fetchM lk skv.1 m st2)
    (P := fun s : CollectState => ∀ u ∈ s.fetched,
      u ∈ st.fetched ∨ ∃ md ∈ skv.2.rounds,
        u = md.matchUrl ∧ statusOk md ∧ ¬ forfeitCond md)
    skv.2.rounds st (fun u hu => Or.inl hu)
    (fun a m hm ha u hu => by
      dsimp only at hu
      rcases collectMatch_fetched checked fetchM lk skv.1 m a u hu
        with hold | ⟨hueq, hok, hnf⟩
      · exact ha u hold
      · exact Or.inr ⟨m, hm, hueq, hok, hnf⟩)
  exact main

theorem collectLeague_fetched_prov (checked : List (String × List String))
    (fetchM : String → Option MatchDetail)
    (st : CollectState) (lkv : String × LeagueVal) :
    ∀ u ∈ (collectLeague checked fetchM st lkv).fetched,
      u ∈ st.fetched ∨ ∃ skv ∈ lkv.2.subLeagues, ∃ md ∈ skv.2.rounds,
        u = md.matchUrl ∧ statusOk md ∧ ¬ forfeitCond md := by
  simp only [collectLeague]
  have main := foldl_pres
    (f := collectSubLeague checked fetchM lkv.1)
    (P := fun s : CollectState => ∀ u ∈ s.fetched,
      u ∈ st.fetched ∨ ∃ skv ∈ lkv.2.subLeagues, ∃ md ∈ skv.2.rounds,
        u = md.matchUrl ∧ statusOk md ∧ ¬ forfeitCond md)
    lkv.2.subLeagues st (fun u hu => Or.inl hu)
    (fun a skv hs ha u hu => by
      rcases collectSubLeague_fetched_prov checked fetchM lkv.1 a skv u hu
        with hold | ⟨md, hmd, hueq, hok, hnf⟩
      · exact ha u hold
      · exact Or.inr ⟨skv, hs, md, hmd, hueq, hok, hnf⟩)
  exact main

theorem collectAll_fetched_prov (checked : List (String × List String))
    (fetchM : String → Option MatchDetail) (ld : LeagueData)
    (st : CollectState) :
    ∀ u ∈ (collectAll checked fetchM ld st).fetched,
      u ∈ st.fetched ∨ FreshProv ld u := by
  simp only [collectAll]
  have main := foldl_pres
    (f := collectLeague checked fetchM)
    (P := fun s : CollectState => ∀ u ∈ s.fetched,
      u ∈ st.fetched ∨ FreshProv ld u)
    ld.leagues st (fun u hu => Or.inl hu)
    (fun a lkv hl ha u hu => by
      rcases collectLeague_fetched_prov checked fetchM a lkv u hu
        with hold | ⟨skv, hskv, md, hmd, hueq, hok, hnf⟩
      · exact ha u hold
      · exact Or.inr ⟨lkv, hl, skv, hskv, md, hmd, hueq, hok, hnf⟩)
  exact main

theorem collectSubLeague_cand_prov (checked : List (String × List String))
    (fetchM : String → Option MatchDetail) (lk : String)
    (st : CollectState) (skv : String × SubVal) :
    ∀ c, CandIn (collectSubLeague checked fetchM lk st skv).candidates c →
      CandIn st.candidates c ∨ ∃ md ∈ skv.2.rounds,
        c.ref.matchUrl = md.matchUrl ∧ statusOk md ∧ ¬ forfeitCond md := by
  simp only [collectSubLeague]
  have main := foldl_pres
    (f := fun st2 m => collectMatch checked fetchM lk skv.1 m st2)
    (P := fun s : CollectState => ∀ c, CandIn s.candidates c →
      CandIn st.candidates c ∨ ∃ md ∈ skv.2.rounds,
        c.ref.matchUrl = md.matchUrl ∧ statusOk md ∧ ¬ forfeitCond md)
    skv.2.rounds st (fun c hc => Or.inl hc)
    (fun a m hm ha c hc => by
      dsimp only at hc
      rcases collectMatch_cand checked fetchM lk skv.1 m a c hc
        with hold | ⟨hueq, hok, hnf⟩
      · exact ha c hold
      · exact Or.inr ⟨m, hm, hueq, hok, hnf⟩)
  exact main

theorem collectLeague_cand_prov (checked : List (String × List String))
    (fetchM : String → Option MatchDetail)
    (st : CollectState) (lkv : String × LeagueVal) :
    ∀ c, CandIn (collectLeague checked fetchM st lkv).candidates c →
      CandIn st.candidates c ∨ ∃ skv ∈ lkv.2.subLeagues, ∃ md ∈ skv.2.rounds,
        c.ref.matchUrl = md.matchUrl ∧ statusOk md ∧ ¬ forfeitCond md := by
  simp only [collectLeague]
  have main := foldl_pres
    (f := collectSubLeague checked fetchM lkv.1)
    (P := fun s : CollectState => ∀ c, CandIn s.candidates c →
      CandIn st.candidates c ∨ ∃ skv ∈ lkv.2.subLeagues, ∃ md ∈ skv.2.rounds,
        c.ref.matchUrl = md.matchUrl ∧ statusOk md ∧ ¬ forfeitCond md)
    lkv.2.subLeagues st (fun c hc => Or.inl hc)
    (fun a skv hs ha c hc => by
      rcases collectSubLeague_cand_prov checked fetchM lkv.1 a skv c hc
        with hold | ⟨md, hmd, hueq, hok, hnf⟩
      · exact ha c hold
      · exact Or.inr ⟨skv, hs, md, hmd, hueq, hok, hnf⟩)
  exact main

theorem collectAll_cand_prov (checked : List (String × List String))
    (fetchM : String → Option MatchDetail) (ld : LeagueData)
    (st : CollectState) :
    ∀ c, CandIn (collectAll checked fetchM ld st).candidates c →
      CandIn st.candidates c ∨ FreshProv ld c.ref.matchUrl := by
  simp only [collectAll]
  have main := foldl_pres
    (f := collectLeague checked fetchM)
    (P := fun s : CollectState => ∀ c, CandIn s.candidates c →
      CandIn st.candidates c ∨ FreshProv ld c.ref.matchUrl)
    ld.leagues st (fun c hc => Or.inl hc)
    (fun a lkv hl ha c hc => by
      rcases collectLeague_cand_prov checked fetchM a lkv c hc
        with hold | ⟨skv, hskv, md, hmd, hueq, hok, hnf⟩
      · exact ha c hold
      · exact Or.inr ⟨lkv, hl, skv, hskv, md, hmd, hueq, hok, hnf⟩)
  exact main

theorem collectPhase_cand_prov (fetchM : String → Option MatchDetail)
    (ld : LeagueData) (existingOut : Option Results) (cache0 : Cache) :
    ∀ c, CandIn (collectPhase fetchM ld existingOut cache0).candidates c →
      FreshProv ld c.ref.matchUrl := by
  intro c hc
  simp only [collectPhase] at hc
  rcases collectAll_cand_prov (initialChecked existingOut cache0) fetchM ld _ c hc
    with h0 | h1
  · obtain ⟨q, hq, _⟩ := h0
    exact absurd hq (List.not_mem_nil q)
  · exact h1

theorem collectPhase_fetched_prov (fetchM : String → Option MatchDetail)
    (ld : LeagueData) (existingOut : Option Results) (cache0 : Cache) :
    ∀ u ∈ (collectPhase fetchM ld existingOut cache0).fetched,
      FreshProv ld u := by
  intro u hu
  simp only [collectPhase] at hu
  rcases collectAll_fetched_prov (initialChecked existingOut cache0) fetchM ld _ u hu
    with h0 | h1
  · exact absurd h0 (List.not_mem_nil u)
  · exact h1

/-- C9: a match of the league data set with status in_progress or finished
whose result string contains "forfeit" (or which is finished with an empty
per-player statistics dict) and whose URL is not yet in the resolved-match
set is auto-resolved by the collector: its URL is in the resolved-match set
written to the cache file, its match detail is never fetched, no candidate
of the run references it (so no board fetch is made on its account), and
the run's freshly emitted results contain no match item with its URL. The
hypothesis `hall` expresses that the URL identifies the match within the
league data set: every record bearing it passes the same auto-cache test
or is skipped by the status test. -/
theorem c9_forfeit_autoresolved (threshold : Nat) (mc : String → Nat)
    (fetchM : String → Option MatchDetail) (fetchB : String → Option (List Game))
    (ld : LeagueData) (existingOut : Option Results) (cache0 : Cache)
    (now : String) (murl : String)
    (lkv : String × LeagueVal) (skv : String × SubVal) (md : MatchData)
    (hl : lkv ∈ ld.leagues) (hs : skv ∈ lkv.2.subLeagues) (hm : md ∈ skv.2.rounds)
    (hurl : md.matchUrl = murl) (hst : statusOk md) (hf : forfeitCond md)
    (hne : murl ≠ "") (_hnotin : murl ∉ cache0.checkedMatches)
    (hall : ∀ lkv2 ∈ ld.leagues, ∀ skv2 ∈ lkv2.2.subLeagues,
      ∀ md2 ∈ skv2.2.rounds, md2.matchUrl = murl →
        forfeitCond md2 ∨ ¬ statusOk md2) :
    murl ∈ (runEngine threshold mc fetchM fetchB ld existingOut cache0
      now).cacheFile.checkedMatches ∧
    murl ∉ (runEngine threshold mc fetchM fetchB ld existingOut cache0
      now).matchFetches ∧
    (∀ c, CandIn (runEngine threshold mc fetchM fetchB ld existingOut cache0
      now).candidates c → c.ref.matchUrl ≠ murl) ∧
    ¬ MatchUrlIn (runEngine threshold mc fetchM fetchB ld existingOut cache0
      now).newResults murl := by
  have hne2 : md.matchUrl ≠ "" := by
    rw [hurl]
    exact hne
  have hcand : ∀ c, CandIn (collectPhase fetchM ld existingOut cache0).candidates c →
      c.ref.matchUrl ≠ murl := by
    intro c hc hceq
    obtain ⟨lkv2, hl2, skv2, hs2, md2, hm2, hueq, hok2, hnf2⟩ :=
      collectPhase_cand_prov fetchM ld existingOut cache0 c hc
    rcases hall lkv2 hl2 skv2 hs2 md2 hm2 (hueq.symm.trans hceq) with hf2 | hns2
    · exact hnf2 hf2
    · exact hns2 hok2
  have hmf : murl ∉ (collectPhase fetchM ld existingOut cache0).fetched := by
    intro hin
    obtain ⟨lkv2, hl2, skv2, hs2, md2, hm2, hueq, hok2, hnf2⟩ :=
      collectPhase_fetched_prov fetchM ld existingOut cache0 murl hin
    rcases hall lkv2 hl2 skv2 hs2 md2 hm2 hueq.symm with hf2 | hns2
    · exact hnf2 hf2
    · exact hns2 hok2
  have hcm : murl ∈ (collectPhase fetchM ld existingOut cache0).checkedMatches := by
    simp only [collectPhase]
    rw [← hurl]
    exact collectAll_cm_adds (initialChecked existingOut cache0) fetchM ld hl hs hm
      hst hne2 hf _
  have hnr : ¬ MatchUrlIn
      (classifyPhase threshold mc fetchM fetchB ld existingOut cache0 now).results
      murl := by
    intro hin
    simp only [classifyPhase] at hin
    rcases matchUrlIn_classifyAll threshold mc fetchB _ _ murl hin
      with h0 | ⟨p, hp, c, hcmem, hceq⟩
    · obtain ⟨q, hq, _⟩ := h0
      exact absurd hq (List.not_mem_nil q)
    · exact hcand c ⟨p, hp, hcmem⟩ hceq.symm
  refine ⟨?_, hmf, hcand, hnr⟩
  exact mem_sortStrings.mpr (promote_mono_cm _ _ hcm)

/-- C9 witness: the single finished forfeit match `mf` of `ldForfeit`,
run from the empty cache with no results file, lands in the saved
resolved-match set, is never fetched, enqueues no candidate and emits no
record. -/
theorem c9_witness :
    "mf" ∈ (runEngine 2 (fun _ => 0) (fun _ => none) (fun _ => none)
      ldForfeit none cacheEmpty "t").cacheFile.checkedMatches ∧
    "mf" ∉ (runEngine 2 (fun _ => 0) (fun _ => none) (fun _ => none)
      ldForfeit none cacheEmpty "t").matchFetches ∧
    (∀ c, CandIn (runEngine 2 (fun _ => 0) (fun _ => none) (fun _ => none)
      ldForfeit none cacheEmpty "t").candidates c → c.ref.matchUrl ≠ "mf") ∧
    ¬ MatchUrlIn (runEngine 2 (fun _ => 0) (fun _ => none) (fun _ => none)
      ldForfeit none cacheEmpty "t").newResults "mf" :=
  c9_forfeit_autoresolved 2 (fun _ => 0) (fun _ => none) (fun _ => none)
    ldForfeit none cacheEmpty "t" "mf"
    ("L", lvForfeit) ("S", svForfeit) mdForfeit
    (by decide) (by decide) (by decide)
    (by decide) (Or.inr (by decide)) (Or.inl (by decide))
    (by decide) (by decide)
    (by
      intro lkv2 hl2 skv2 hs2 md2 hm2 _
      simp only [ldForfeit, List.mem_singleton] at hl2
      subst hl2
      simp only [lvForfeit, List.mem_singleton] at hs2
      subst hs2
      simp only [svForfeit, List.mem_singleton] at hm2
      subst hm2
      exact Or.inl (Or.inl (by decide)))

/-! ## Supporting lemmas: sortedness of the cache save -/

theorem listLe_total : ∀ as bs : List Char, listLe as bs = true ∨ listLe bs as = true
  | [], _ => Or.inl rfl
  | _ :: _, [] => Or.inr rfl
  | a :: as, b :: bs => by
    by_cases h1 : a < b
    · left
      simp [listLe, h1]
    · by_cases h2 : b < a
      · right
        simp [listLe, h2]
      · simp only [listLe, if_neg h1, if_neg h2]
        exact listLe_total as bs

theorem strLe_total (a b : String) : strLe a b = true ∨ strLe b a = true :=
  listLe_total a.toList b.toList

theorem insertSorted_sorted (x : String) :
    ∀ {l : List String}, StrSorted l → StrSorted (insertSorted x l) := by
  intro l
  induction l with
  | nil =>
    intro _
    exact List.chain'_singleton x
  | cons y ys ih =>
    intro h
    simp only [insertSorted]
    split
    · next hxy =>
      exact List.Chain'.cons hxy h
    · next hxy =>
      have hyx : strLe y x = true := by
        rcases strLe_total x y with h1 | h2
        · exact absurd h1 hxy
        · exact h2
      obtain ⟨hhead, htail⟩ := List.chain'_cons'.mp h
      refine List.chain'_cons'.mpr ⟨?_, ih htail⟩
      intro z hz
      cases ys with
      | nil =>
        simp only [insertSorted, List.head?_cons, Option.mem_def,
          Option.some.injEq] at hz
        rw [← hz]
        exact hyx
      | cons w ws =>
        simp only [insertSorted] at hz
        rcases hzsplit : strLe x w with _ | _
        · rw [hzsplit] at hz
          simp only [Bool.false_eq_true, if_false, List.head?_cons,
            Option.mem_def, Option.some.injEq] at hz
          rw [← hz]
          exact hhead w rfl
        · rw [hzsplit] at hz
          simp only [if_true, List.head?_cons, Option.mem_def,
            Option.some.injEq] at hz
          rw [← hz]
          exact hyx

theorem sortStrings_sorted : ∀ l : List String, StrSorted (sortStrings l)
  | [] => List.chain'_nil
  | x :: xs => insertSorted_sorted x (sortStrings_sorted xs)

/-- C4 counterexample: two successive runs over unchanged data need not
produce byte-identical cache files, even at an identical run timestamp.
Run 1 over `ldChurn` emits alice's early resignation and promotes `m1`,
deleting its resolved-PMC entry from the saved cache; run 2's prefill
re-adds `alice:white` under `m1` from the results file, and the save
writes that entry back, so the second cache file differs from the
first. -/
theorem c4_counterexample :
    (runEngine 2 (fun _ => 0) fMChurn fBChurn ldChurn
      (some (runEngine 2 (fun _ => 0) fMChurn fBChurn ldChurn none
        cacheEmpty "t").outFile)
      (cacheOf (runEngine 2 (fun _ => 0) fMChurn fBChurn ldChurn none
        cacheEmpty "t").cacheFile)
      "t").cacheFile ≠
    (runEngine 2 (fun _ => 0) fMChurn fBChurn ldChurn none cacheEmpty
      "t").cacheFile := by
  decide

/-- C4 (amended): a second run over unchanged data and fetchers appends
records only — its output file positionally extends the first run's (no
league, sub-league, match or player record is removed, and a player is
appended to a match only under a key absent from it) and carries the
second run's timestamp; and the cache save serializes every list value
deterministically sorted (the resolved-board and resolved-match lists and
each per-match resolved-PMC list), dict keys keeping insertion order.
Byte-identity of the files does not hold in general: the timestamps
differ, and the resolved-PMC map regains prefilled entries for matches
promoted by the first run. -/
theorem c4_idempotence_amended (threshold : Nat) (mc : String → Nat)
    (fetchM : String → Option MatchDetail) (fetchB : String → Option (List Game))
    (ld : LeagueData) (existingOut : Option Results) (cache0 : Cache)
    (now1 now2 : String) :
    let r1 := runEngine threshold mc fetchM fetchB ld existingOut cache0 now1
    let r2 := runEngine threshold mc fetchM fetchB ld (some r1.outFile)
      (cacheOf r1.cacheFile) now2
    ResultsExt r1.outFile r2.outFile ∧
    r2.outFile.lastUpdated = some now2 ∧
    StrSorted r2.cacheFile.checkedBoards ∧
    StrSorted r2.cacheFile.checkedMatches ∧
    ∀ kv ∈ r2.cacheFile.checkedPlayersByMatch, StrSorted kv.2 := by
  intro r1 r2
  refine ⟨?_, rfl, sortStrings_sorted _, sortStrings_sorted _, ?_⟩
  · exact mergeResults_ext
      (classifyPhase threshold mc fetchM fetchB ld (some r1.outFile)
        (cacheOf r1.cacheFile) now2).results
      r1.outFile
  · intro kv hkv
    have hkv2 : kv ∈ (promotePhase threshold mc fetchM fetchB ld (some r1.outFile)
        (cacheOf r1.cacheFile) now2).checked.map
          (fun p => (p.1, sortStrings p.2)) := hkv
    obtain ⟨p, _, hpe⟩ := List.mem_map.mp hkv2
    rw [← hpe]
    exact sortStrings_sorted _

end DetectEarly
